import Mathlib

/-!
# SatSentry: `app/static/js/main.js`

A shallow embedding of the page script and the proofs of its specified behaviour.

Modelling conventions.

* JavaScript strings are Lean strings; strings with lone surrogates are left out (no surrogate
  is white space, so `trim` does not depend on them).
* The page is the forest of nodes below `document.body`, in document order.  The `html`, `head`
  and `body` elements themselves are outside the model; `document.body` always exists.
* Every element object carries an identity `ref`.  Closures and timers that keep an element
  across events refer to it by `ref`.  Inside one synchronous function a node that was just
  located or inserted is addressed by its position (a path of child indices).
* Promises are represented by their settlement state; their reactions are run by the explicit
  steps `settle` (a promise job) and `fire` (a timer task).  Wall-clock time is not modelled, a
  timer records the delay it was scheduled with.
* `State.trace` is a ghost log of the calls whose order the specification talks about.
* The script registers bubble-phase listeners only.  A `click` or `submit` event runs the
  listeners of its target and then those of each ancestor element below `document.body`, nearest
  first; a `blur` event does not bubble and runs the listeners of its target only.  The path is
  fixed when the event is dispatched.
* Only elements attached below `document.body` are tracked: an operation on an element that is
  not in the page leaves the state as it is.  Comment nodes are left out.
-/

namespace SatSentry

/-! ## Strings -/

/-- ECMAScript `WhiteSpace` and `LineTerminator` code points, the ones `trim` strips. -/
def isWhiteSpace (c : Char) : Bool :=
  let n := c.toNat
  n == 0x09 || n == 0x0A || n == 0x0B || n == 0x0C || n == 0x0D || n == 0x20 || n == 0xA0
    || n == 0x1680 || (decide (0x2000 ≤ n) && decide (n ≤ 0x200A)) || n == 0x2028 || n == 0x2029
    || n == 0x202F || n == 0x205F || n == 0x3000 || n == 0xFEFF

/-- The characters of `String.prototype.trim`: leading, then trailing white space removed. -/
def trimChars (cs : List Char) : List Char :=
  ((cs.dropWhile isWhiteSpace).reverse.dropWhile isWhiteSpace).reverse

/-- Model of `String.prototype.trim`. -/
def trim (s : String) : String := ⟨trimChars s.data⟩

/-- JavaScript `ToBoolean` on a string: only the empty string is falsy. -/
def truthy (s : String) : Bool := decide (s ≠ "")

/-! ## The DOM -/

/-- The data an element carries besides its children.  `classList` is the token list of the
`class` attribute, `attrs` holds the other attributes, `value` is the current value of a form
control (unused for other elements). -/
structure ElementData where
  ref : Nat
  tag : String
  classList : List String
  attrs : List (String × String)
  value : String
deriving DecidableEq, Repr

/-- A DOM node: character data or an element with its child list. -/
inductive Node where
  | text (data : String)
  | element (d : ElementData) (children : List Node)
deriving Repr

mutual
/-- Deciding equality of nodes. -/
def Node.decEq : (a b : Node) → Decidable (a = b)
  | .text s, .text t =>
    if h : s = t then isTrue (by rw [h]) else isFalse (fun e => h (by cases e; rfl))
  | .text _, .element _ _ => isFalse (fun e => by cases e)
  | .element _ _, .text _ => isFalse (fun e => by cases e)
  | .element d cs, .element d2 cs2 =>
    if h : d = d2 then
      match decEqL cs cs2 with
      | isTrue h2 => isTrue (by rw [h, h2])
      | isFalse h2 => isFalse (fun e => h2 (by cases e; rfl))
    else isFalse (fun e => h (by cases e; rfl))
/-- Deciding equality of forests. -/
def decEqL : (a b : List Node) → Decidable (a = b)
  | [], [] => isTrue rfl
  | [], _ :: _ => isFalse (fun e => by cases e)
  | _ :: _, [] => isFalse (fun e => by cases e)
  | a :: as, b :: bs =>
    match Node.decEq a b with
    | isTrue h =>
      match decEqL as bs with
      | isTrue h2 => isTrue (by rw [h, h2])
      | isFalse h2 => isFalse (fun e => h2 (by cases e; rfl))
    | isFalse h => isFalse (fun e => h (by cases e; rfl))
end

instance : DecidableEq Node := Node.decEq

/-- An element together with its children. -/
abbrev Element := ElementData × List Node

/-- The selectors the script uses. -/
inductive Selector where
  | cls (name : String)
  | tag (name : String)
  | hasAttr (attr : String)
  | attrEq (attr value : String)
  | tagHasAttr (tag attr : String)
deriving DecidableEq, Repr

/-- Model of `element.getAttribute(name)`; `none` is `null`. -/
def getAttribute (d : ElementData) (name : String) : Option String :=
  (d.attrs.find? (fun a => a.1 == name)).map (fun a => a.2)

/-- Whether an element matches a selector. -/
def Selector.matches : Selector → ElementData → Bool
  | .cls c, d => d.classList.contains c
  | .tag t, d => d.tag == t
  | .hasAttr a, d => (getAttribute d a).isSome
  | .attrEq a v, d => getAttribute d a == some v
  | .tagHasAttr t a, d => d.tag == t && (getAttribute d a).isSome

mutual
/-- The elements of a subtree in document order. -/
def Node.elements : Node → List Element
  | .text _ => []
  | .element d cs => (d, cs) :: elementsL cs
/-- The elements of a forest in document order. -/
def elementsL : List Node → List Element
  | [] => []
  | n :: ns => n.elements ++ elementsL ns
end

mutual
/-- Model of `node.textContent`: the character data of the subtree, concatenated. -/
def Node.textContent : Node → String
  | .text s => s
  | .element _ cs => textContentL cs
/-- The `textContent` of an element with the given children. -/
def textContentL : List Node → String
  | [] => ""
  | n :: ns => n.textContent ++ textContentL ns
end

/-- Model of `document.querySelectorAll(sel)`: the matching elements in document order. -/
def querySelectorAll (sel : Selector) (page : List Node) : List Element :=
  (elementsL page).filter (fun e => sel.matches e.1)

/-- Moves a path one sibling to the right. -/
def bump : List Nat → List Nat
  | [] => []
  | i :: p => (i + 1) :: p

mutual
/-- Path, below a node, of the first matching proper descendant. -/
def Node.findPath (sel : Selector) : Node → Option (List Nat)
  | .text _ => none
  | .element _ cs => findPathL sel cs
/-- Path of the first element of a forest, in document order, that matches. -/
def findPathL (sel : Selector) : List Node → Option (List Nat)
  | [] => none
  | n :: ns =>
    match n with
    | .text _ => (findPathL sel ns).map bump
    | .element d _ =>
      if sel.matches d then some [0]
      else match n.findPath sel with
        | some p => some (0 :: p)
        | none => (findPathL sel ns).map bump
end

/-- Model of `document.querySelector(sel)`: the position of the first match, `none` for `null`. -/
def querySelector (sel : Selector) (page : List Node) : Option (List Nat) :=
  findPathL sel page

mutual
/-- The descendant of a node at a path. -/
def Node.getAt (p : List Nat) : Node → Option Node
  | .text _ => none
  | .element _ cs => getAtL p cs
/-- The node of a forest at a path. -/
def getAtL (p : List Nat) : List Node → Option Node
  | [] => none
  | n :: ns =>
    match p with
    | [] => none
    | [0] => some n
    | 0 :: q => n.getAt q
    | (i + 1) :: q => getAtL (i :: q) ns
end

mutual
/-- Detaches the descendant of a node at a path. -/
def Node.removeAt (p : List Nat) : Node → Node
  | .text s => .text s
  | .element d cs => .element d (removeAtL p cs)
/-- Model of `node.remove()` for the node at a path: it leaves its parent, with its subtree. -/
def removeAtL (p : List Nat) : List Node → List Node
  | [] => []
  | n :: ns =>
    match p with
    | [] => n :: ns
    | [0] => ns
    | 0 :: q => n.removeAt q :: ns
    | (i + 1) :: q => n :: removeAtL (i :: q) ns
end

mutual
/-- The first element of a subtree, in document order, with identity `r`. -/
def Node.lookup (r : Nat) : Node → Option Element
  | .text _ => none
  | .element d cs => if d.ref = r then some (d, cs) else lookupL r cs
/-- The first element of a forest, in document order, with identity `r`. -/
def lookupL (r : Nat) : List Node → Option Element
  | [] => none
  | n :: ns =>
    match n.lookup r with
    | some e => some e
    | none => lookupL r ns
end

mutual
/-- Replaces the element with identity `r` by `g` of it. -/
def Node.update (r : Nat) (g : ElementData → List Node → Element) : Node → Node
  | .text s => .text s
  | .element d cs =>
    if d.ref = r then .element (g d cs).1 (g d cs).2 else .element d (updateL r g cs)
/-- Replaces, in a forest, the element with identity `r` by `g` of it. -/
def updateL (r : Nat) (g : ElementData → List Node → Element) : List Node → List Node
  | [] => []
  | n :: ns => n.update r g :: updateL r g ns
end

/-- Changes the data of the element with identity `r`, keeping its children. -/
def updateData (r : Nat) (f : ElementData → ElementData) (page : List Node) : List Node :=
  updateL r (fun d cs => (f d, cs)) page

/-- Model of the `textContent` setter: the children become one text node (none for `""`). -/
def setTextContent (r : Nat) (txt : String) (page : List Node) : List Node :=
  updateL r (fun d _ => (d, if txt = "" then [] else [.text txt])) page

/-- The class list of the element with identity `r`, when it is in the page. -/
def classListOf (r : Nat) (page : List Node) : Option (List String) :=
  (lookupL r page).map (fun e => e.1.classList)

/-- The label of a node: what it is, without its children. -/
inductive Label where
  | text (data : String)
  | element (d : ElementData)
deriving DecidableEq, Repr

mutual
/-- A subtree listed in document order, each node with its depth. -/
def Node.outline (depth : Nat) : Node → List (Nat × Label)
  | .text s => [(depth, .text s)]
  | .element d cs => (depth, .element d) :: outlineL (depth + 1) cs
/-- A forest listed in document order, each node with its depth. -/
def outlineL (depth : Nat) : List Node → List (Nat × Label)
  | [] => []
  | n :: ns => n.outline depth ++ outlineL depth ns
end

/-- Model of `DOMTokenList.add` for one token. -/
def addToken (tok : String) (l : List String) : List String :=
  if l.contains tok then l else l ++ [tok]

/-- Model of `DOMTokenList.remove` for one token. -/
def removeToken (tok : String) (l : List String) : List String :=
  l.filter (fun t => t != tok)

/-! ## The environment and the state of the page -/

/-- How a promise settles. -/
inductive Outcome where
  | fulfilled
  | rejected (reason : String)
deriving DecidableEq, Repr

/-- A promise, by its settlement state when it is handed over. -/
inductive Promise where
  | settled (o : Outcome)
  | pending (id : Nat)
deriving DecidableEq, Repr

/-- The object `navigator.clipboard`; `writeText` may be missing. -/
structure Clipboard where
  writeText : Option (String → Promise)

/-- What the browser supplies: `navigator.clipboard`, the result of `document.execCommand`,
whether the global `bootstrap` is defined, the time value of `new Date(s)` (`none` is `NaN`)
and the locale rendering of a time value. -/
structure Env where
  clipboard : Option Clipboard
  execCommand : String → Bool
  bootstrapLoaded : Bool
  dateParse : String → Option Int
  dateToLocaleString : Int → String

/-- The callbacks the script hands to `setTimeout`. -/
inductive Callback where
  | removeClass (element : Nat) (token : String)
deriving DecidableEq, Repr

/-- A scheduled timer. -/
structure Timer where
  callback : Callback
  delay : Nat
deriving DecidableEq, Repr

/-- The reaction chains the script attaches to promises. -/
inductive Reaction where
  | copySettled (element : Nat)
deriving DecidableEq, Repr

/-- The event handlers the script registers, with what their closures captured. -/
inductive Handler where
  | copyClick (element : Nat) (text : String)
  | formSubmit
  | requiredBlur
deriving DecidableEq, Repr

/-- One `addEventListener` registration. -/
structure Listener where
  target : Nat
  event : String
  handler : Handler
deriving DecidableEq, Repr

/-- The calls recorded in the ghost trace. -/
inductive Call where
  | classListAdd (element : Nat) (token : String)
  | classListRemove (element : Nat) (token : String)
  | copyToClipboard (text : String)
  | writeText (text : String)
  | appendChild (tag : String)
  | select
  | execCommand (command : String) (result : Bool)
  | removeChild (tag : String)
deriving DecidableEq, Repr

/-- The state of the page. -/
structure State where
  body : List Node
  nextRef : Nat
  console : List (String × String)
  timers : List Timer
  jobs : List (Promise × Reaction)
  listeners : List Listener
  tooltips : List Nat
  trace : List Call

/-! ## Primitive operations -/

/-- Appends a call to the ghost trace. -/
def logCall (c : Call) (s : State) : State :=
  { s with trace := s.trace ++ [c] }

/-- Model of `element.classList.add(token)`. -/
def classListAdd (element : Nat) (token : String) (s : State) : State :=
  { s with
    body := updateData element (fun d => { d with classList := addToken token d.classList }) s.body
    trace := s.trace ++ [.classListAdd element token] }

/-- Model of `element.classList.remove(token)`. -/
def classListRemove (element : Nat) (token : String) (s : State) : State :=
  { s with
    body :=
      updateData element (fun d => { d with classList := removeToken token d.classList }) s.body
    trace := s.trace ++ [.classListRemove element token] }

/-- Model of `document.body.appendChild(node)`. -/
def appendChild (tag : String) (node : Node) (s : State) : State :=
  { s with body := s.body ++ [node], trace := s.trace ++ [.appendChild tag] }

/-- Model of `document.body.removeChild(node)` for the child at a position. -/
def removeChild (tag : String) (position : Nat) (s : State) : State :=
  { s with body := s.body.eraseIdx position, trace := s.trace ++ [.removeChild tag] }

/-- Model of `setTimeout(callback, delay)`. -/
def setTimeout (callback : Callback) (delay : Nat) (s : State) : State :=
  { s with timers := s.timers ++ [⟨callback, delay⟩] }

/-- Model of `console.error(message, detail)`. -/
def consoleError (message detail : String) (s : State) : State :=
  { s with console := s.console ++ [(message, detail)] }

/-- Model of `target.addEventListener(event, handler)`. -/
def addEventListener (target : Nat) (event : String) (handler : Handler) (s : State) : State :=
  { s with listeners := s.listeners ++ [⟨target, event, handler⟩] }

/-! ## `formatTimestamps` -/

/-- Model of `Date.prototype.toLocaleString` on the date with the given time value. -/
def dateToLocaleString (env : Env) (timeValue : Option Int) : String :=
  match timeValue with
  | none => "Invalid Date"
  | some t => env.dateToLocaleString t

/-- The `try` block of `formatTimestamps`; neither `new Date(string)` nor `toLocaleString()`
throws, so it always completes. -/
def formatTimestampTry (env : Env) (element : Nat) (timestamp : String) (s : State) :
    Except String State :=
  let date := env.dateParse timestamp
  .ok { s with body := setTextContent element (dateToLocaleString env date) s.body }

/-- The callback `formatTimestamps` runs on each element. -/
def formatTimestamp (env : Env) (s : State) (element : Element) : State :=
  match getAttribute element.1 "data-timestamp" with
  | none => s
  | some timestamp =>
    if truthy timestamp then
      match formatTimestampTry env element.1.ref timestamp s with
      | .ok s1 => s1
      | .error e => consoleError "Error formatting timestamp:" e s
    else s

/-- Model of `formatTimestamps()`. -/
def formatTimestamps (env : Env) (s : State) : State :=
  (querySelectorAll (.hasAttr "data-timestamp") s.body).foldl (formatTimestamp env) s

/-! ## The loading overlay -/

/-- The node `showLoading` builds: the overlay `div` with the parsed `innerHTML`. -/
def overlayNode (r : Nat) : Node :=
  .element ⟨r, "div", ["loading-overlay"], [], ""⟩
    [ .text "\n        ",
      .element
        ⟨r + 1, "div", ["spinner-border", "text-primary", "loading-spinner"],
          [("role", "status")], ""⟩
        [ .text "\n            ",
          .element ⟨r + 2, "span", ["visually-hidden"], [], ""⟩ [.text "Loading..."],
          .text "\n        " ],
      .text "\n    " ]

/-- Model of `showLoading()`. -/
def showLoading (s : State) : State :=
  { s with body := s.body ++ [overlayNode s.nextRef], nextRef := s.nextRef + 3 }

/-- Model of `hideLoading()`. -/
def hideLoading (s : State) : State :=
  match querySelector (.cls "loading-overlay") s.body with
  | some overlay => { s with body := removeAtL overlay s.body }
  | none => s

/-- The number of elements of class `loading-overlay` in a page. -/
def overlayCount (page : List Node) : Nat :=
  (querySelectorAll (.cls "loading-overlay") page).length

/-! ## `copyToClipboard` -/

/-- The value of `navigator.clipboard && navigator.clipboard.writeText`. -/
def Env.writeText (env : Env) : Option (String → Promise) :=
  env.clipboard.bind (fun c => c.writeText)

/-- Model of `copyToClipboard(text)`: the promise it returns and the state it leaves. -/
def copyToClipboard (env : Env) (text : String) (s : State) : Promise × State :=
  let s := logCall (.copyToClipboard text) s
  match env.writeText with
  | some writeText => (writeText text, logCall (.writeText text) s)
  | none =>
    let textarea : Node := .element ⟨s.nextRef, "textarea", [], [], text⟩ []
    let position := s.body.length
    let s := { s with nextRef := s.nextRef + 1 }
    let s := appendChild "textarea" textarea s
    let s := logCall .select s
    let s := logCall (.execCommand "copy" (env.execCommand "copy")) s
    let s := removeChild "textarea" position s
    (.settled .fulfilled, s)

/-! ## `initTooltips` -/

/-- Model of `new bootstrap.Tooltip(element)`: a `ReferenceError` when `bootstrap` is missing. -/
def newTooltip (env : Env) (element : Nat) (s : State) : Except String State :=
  if env.bootstrapLoaded then .ok { s with tooltips := s.tooltips ++ [element] }
  else .error "ReferenceError: bootstrap is not defined"

/-- The `map` over the tooltip triggers. -/
def initTooltipsMap (env : Env) : List Element → State → Except String State
  | [], s => .ok s
  | e :: es, s =>
    match newTooltip env e.1.ref s with
    | .ok s1 => initTooltipsMap env es s1
    | .error err => .error err

/-- Model of `initTooltips()`. -/
def initTooltips (env : Env) (s : State) : Except String State :=
  initTooltipsMap env (querySelectorAll (.attrEq "data-bs-toggle" "tooltip") s.body) s

/-! ## The handlers registered on `DOMContentLoaded` -/

/-- The click handler of an `address-code` element, up to the point where the reactions are
attached to the promise `copyToClipboard` returned. -/
def copyClick (env : Env) (element : Nat) (text : String) (s : State) : State :=
  let s := classListAdd element "copied" s
  let r := copyToClipboard env text s
  { r.2 with jobs := r.2.jobs ++ [(r.1, .copySettled element)] }

/-- Model of `p.then(onFulfilled)` for a callback that does not throw: the outcome of the
derived promise and the state after the reaction ran. -/
def thenStep (onFulfilled : State → State) : Outcome → State → Outcome × State
  | .fulfilled, s => (.fulfilled, onFulfilled s)
  | .rejected reason, s => (.rejected reason, s)

/-- Model of `p.catch(onRejected)` for a callback that does not throw. -/
def catchStep (onRejected : String → State → State) : Outcome → State → Outcome × State
  | .fulfilled, s => (.fulfilled, s)
  | .rejected reason, s => (.fulfilled, onRejected reason s)

/-- The reactions of a settled promise. -/
def runReaction : Reaction → Outcome → State → State
  | .copySettled element, o, s =>
    let r := thenStep (fun s => setTimeout (.removeClass element "copied") 1500 s) o s
    let r := catchStep
      (fun err s =>
        setTimeout (.removeClass element "copied") 1500
          (consoleError "Failed to copy text: " err s))
      r.1 r.2
    r.2

/-- Running a timer callback. -/
def runCallback : Callback → State → State
  | .removeClass element token, s => classListRemove element token s

/-- The submit handler of a form. -/
def formSubmit (s : State) : State :=
  showLoading s

/-- The blur handler of a required input; `this` is the input. -/
def requiredBlur (this : Nat) (s : State) : State :=
  match lookupL this s.body with
  | none => s
  | some e =>
    if truthy (trim e.1.value) then
      classListAdd this "is-valid" (classListRemove this "is-invalid" s)
    else
      classListAdd this "is-invalid" (classListRemove this "is-valid" s)

/-- Model of the `DOMContentLoaded` listener.  Its first step, headed `// Format timestamps`, is
empty in the source: `formatTimestamps` is not called. -/
def domContentLoaded (env : Env) (s : State) : Except String State :=
  match initTooltips env s with
  | .error err => .error err
  | .ok s =>
    let s := (querySelectorAll (.cls "address-code") s.body).foldl
      (fun s e =>
        let text := trim (textContentL e.2)
        addEventListener e.1.ref "click" (.copyClick e.1.ref text) s) s
    let s := (querySelectorAll (.tag "form") s.body).foldl
      (fun s e => addEventListener e.1.ref "submit" .formSubmit s) s
    let s := (querySelectorAll (.tagHasAttr "input" "required") s.body).foldl
      (fun s e => addEventListener e.1.ref "blur" .requiredBlur s) s
    .ok s

/-! ## The event loop -/

mutual
/-- The identities on the way from the element `r` up to the root of a subtree: the element
first, then its ancestors, nearest first.  The first element with identity `r` in document
order is taken. -/
def Node.pathTo (r : Nat) : Node → Option (List Nat)
  | .text _ => none
  | .element d cs =>
    if d.ref = r then some [d.ref]
    else match pathToL r cs with
      | some p => some (p ++ [d.ref])
      | none => none
/-- The identities on the way from the element `r` up to the top of a forest. -/
def pathToL (r : Nat) : List Node → Option (List Nat)
  | [] => none
  | n :: ns =>
    match n.pathTo r with
    | some p => some p
    | none => pathToL r ns
end

/-- Whether an event of this type bubbles: `click` and `submit` do, `blur` does not. -/
def bubbles (event : String) : Bool :=
  event == "click" || event == "submit"

/-- The elements an event visits, in order: its target, then, for a bubbling event, the
ancestors of the target in the page, nearest first. -/
def propagationPath (target : Nat) (event : String) (page : List Node) : List Nat :=
  if bubbles event then (pathToL target page).getD [target] else [target]

/-- Running one handler; `current` is the element the listener is registered on (`this`). -/
def runHandler (env : Env) (current : Nat) : Handler → State → State
  | .copyClick element text, s => copyClick env element text s
  | .formSubmit, s => formSubmit s
  | .requiredBlur, s => requiredBlur current s

/-- Running the listeners registered on the element `current` for an event, in registration
order. -/
def deliver (env : Env) (event : String) (s : State) (current : Nat) : State :=
  (s.listeners.filter (fun l => l.target == current && l.event == event)).foldl
    (fun s l => runHandler env current l.handler s) s

/-- Dispatching an event at `target`: its listeners run along the propagation path. -/
def dispatch (env : Env) (target : Nat) (event : String) (s : State) : State :=
  (propagationPath target event s.body).foldl (deliver env event) s

/-- Whether a promise can settle with an outcome. -/
def Promise.settlesAs : Promise → Outcome → Bool
  | .settled o1, o => o1 == o
  | .pending _, _ => true

/-- The promise job of the `i`-th attached reaction chain, its promise settling as `o`. -/
def settle (i : Nat) (o : Outcome) (s : State) : Option State :=
  match s.jobs[i]? with
  | none => none
  | some (p, r) =>
    if p.settlesAs o then some (runReaction r o { s with jobs := s.jobs.eraseIdx i }) else none

/-- The task of the `i`-th scheduled timer. -/
def fire (i : Nat) (s : State) : Option State :=
  match s.timers[i]? with
  | none => none
  | some t => some (runCallback t.callback { s with timers := s.timers.eraseIdx i })

/-- A user edit of a form control: its value becomes `v`. -/
def setValue (element : Nat) (v : String) (s : State) : State :=
  { s with body := updateData element (fun d => { d with value := v }) s.body }

/-- A script or user edit of an element: its text becomes `txt`. -/
def setText (element : Nat) (txt : String) (s : State) : State :=
  { s with body := setTextContent element txt s.body }

/-- The page state right after parsing, before any script ran. -/
def State.initial (page : List Node) (nextRef : Nat) : State :=
  ⟨page, nextRef, [], [], [], [], [], []⟩

/-- Element identities in a page are pairwise distinct. -/
def RefsDistinct (page : List Node) : Prop :=
  ((elementsL page).map (fun e => e.1.ref)).Nodup

/-! ## Derived notions used in the statements -/

/-- The data a required input has after its blur handler ran, from its data before. -/
def blurData (d : ElementData) : ElementData :=
  if truthy (trim d.value) then
    { d with classList := addToken "is-valid" (removeToken "is-invalid" d.classList) }
  else
    { d with classList := addToken "is-invalid" (removeToken "is-valid" d.classList) }

/-- Whether the element `r` of the page carries `is-valid`, and whether it carries
`is-invalid`. -/
def validity (r : Nat) (s : State) : Option (Bool × Bool) :=
  (classListOf r s.body).map (fun cl => (cl.contains "is-valid", cl.contains "is-invalid"))

/-- The listeners the `DOMContentLoaded` listener registers on a page, in registration
order. -/
def wiredListeners (page : List Node) : List Listener :=
  (querySelectorAll (.cls "address-code") page).map
      (fun e => ⟨e.1.ref, "click", .copyClick e.1.ref (trim (textContentL e.2))⟩)
    ++ (querySelectorAll (.tag "form") page).map (fun e => ⟨e.1.ref, "submit", .formSubmit⟩)
    ++ (querySelectorAll (.tagHasAttr "input" "required") page).map
      (fun e => ⟨e.1.ref, "blur", .requiredBlur⟩)

/-- The strings captured by the click listeners that bootstrap on `page` registers on the
element `c`: the trimmed text content, at that time, of each `address-code` element with that
identity (none when `c` is not such an element). -/
def capturedText (page : List Node) (c : Nat) : List String :=
  ((querySelectorAll (.cls "address-code") page).filter (fun e => e.1.ref == c)).map
    (fun e => trim (textContentL e.2))

/-- The forms of `page` with identity `c`: the elements on which bootstrap on `page` registers
a submit listener (none when `c` is not a form of `page`). -/
def wiredForms (page : List Node) (c : Nat) : List Element :=
  (querySelectorAll (.tag "form") page).filter (fun e => e.1.ref == c)

/-- The arguments of the `copyToClipboard` calls of a trace, in order. -/
def copyCalls (tr : List Call) : List String :=
  tr.filterMap (fun c => match c with
    | .copyToClipboard t => some t
    | _ => none)

/-! ## Concrete pages and browsers -/

/-- A required input with identity `1` inside a form, carrying a stale `is-valid`. -/
def inputPage : State :=
  State.initial
    [ .element ⟨0, "form", [], [], ""⟩
        [ .element ⟨1, "input", ["form-control", "is-valid"], [("required", "")], " \t"⟩ [] ] ]
    2

/-- An overlay that holds a second overlay, followed by a text node. -/
def nestedOverlays : State :=
  State.initial
    [ .element ⟨0, "div", ["loading-overlay"], [], ""⟩
        [ .element ⟨1, "div", ["loading-overlay"], [], ""⟩ [] ],
      .text "after" ]
    2

/-- A page with a heading and no overlay. -/
def plainPage : State :=
  State.initial [ .element ⟨0, "h1", [], [], ""⟩ [.text "SatSentry"] ] 1

/-- A page with one form and one copyable address, no tooltip trigger. -/
def walletPage : State :=
  State.initial
    [ .element ⟨0, "form", [], [], ""⟩
        [ .element ⟨1, "input", [], [("required", "")], ""⟩ [] ],
      .element ⟨2, "code", ["address-code"], [], ""⟩ [.text "  bc1qxy \n"] ]
    3

/-- The state `walletPage` is in once the `DOMContentLoaded` listener ran. -/
def walletWired : State :=
  { walletPage with
    listeners :=
      [ ⟨2, "click", .copyClick 2 "bc1qxy"⟩, ⟨0, "submit", .formSubmit⟩,
        ⟨1, "blur", .requiredBlur⟩ ] }

/-- A browser without the asynchronous clipboard and without the `bootstrap` global. -/
def legacyEnv : Env :=
  ⟨none, fun _ => false, false, fun _ => none, fun _ => ""⟩

/-- A page with a tooltip trigger and a form. -/
def tipFormPage : State :=
  State.initial
    [ .element ⟨0, "a", [], [("data-bs-toggle", "tooltip")], ""⟩ [.text "?"],
      .element ⟨1, "form", [], [], ""⟩ [] ]
    2

/-- A form that holds a second form, with the submit listeners bootstrap registers. -/
def nestedFormsWired : State :=
  { State.initial
      [ .element ⟨0, "form", [], [], ""⟩ [ .element ⟨1, "form", [], [], ""⟩ [] ] ] 2 with
    listeners := [ ⟨0, "submit", .formSubmit⟩, ⟨1, "submit", .formSubmit⟩ ] }

/-- A copyable element that holds a second copyable element and a plain one, with the click
listeners bootstrap registers. -/
def nestedCodesWired : State :=
  { State.initial
      [ .element ⟨0, "div", ["address-code"], [], ""⟩
          [ .text " A ",
            .element ⟨1, "span", ["address-code"], [], ""⟩ [.text "B"],
            .element ⟨2, "b", [], [], ""⟩ [.text " C"] ] ]
      3 with
    listeners := [ ⟨0, "click", .copyClick 0 "A B C"⟩, ⟨1, "click", .copyClick 1 "B"⟩ ] }

/-- A browser with the asynchronous clipboard, whose `writeText` hands out a pending promise. -/
def modernEnv : Env :=
  ⟨some ⟨some (fun _ => .pending 7)⟩, fun _ => true, true, fun _ => none, fun _ => ""⟩

/-- A page with one element that carries a timestamp no date parser accepts. -/
def timestampPage : State :=
  State.initial
    [ .element ⟨0, "span", [], [("data-timestamp", "not a date")], ""⟩ [.text "pending"] ]
    1

/-! ## Strings: facts -/

theorem trimChars_eq_nil_iff (cs : List Char) :
    trimChars cs = [] ↔ ∀ c ∈ cs, isWhiteSpace c = true := by
  unfold trimChars
  rw [List.reverse_eq_nil_iff, List.dropWhile_eq_nil_iff]
  constructor
  · intro h c hc
    by_contra hw
    have hmem : c ∈ cs.dropWhile isWhiteSpace := by
      induction cs with
      | nil => simp at hc
      | cons a as ih =>
        by_cases ha : isWhiteSpace a = true
        · rcases List.mem_cons.1 hc with rfl | hc1
          · exact absurd ha hw
          · simpa [List.dropWhile_cons, ha] using ih (by
              simpa [List.dropWhile_cons, ha] using h) hc1
        · simpa [List.dropWhile_cons, ha] using hc
    exact hw (h c (List.mem_reverse.2 hmem))
  · intro h c hc
    exact h c ((List.dropWhile_sublist _).subset (List.mem_reverse.1 hc))

/-- The trimmed string is empty exactly when every character is white space. -/
theorem trim_eq_empty_iff (v : String) : trim v = "" ↔ ∀ c ∈ v.data, isWhiteSpace c = true := by
  rw [← trimChars_eq_nil_iff]
  unfold trim
  constructor
  · intro h
    have := congrArg String.data h
    simpa using this
  · intro h
    rw [h]

/-! ## The DOM: facts -/

mutual
theorem Node.lookup_update (r : Nat) (g : ElementData → List Node → Element)
    (hg : ∀ d cs, (g d cs).1.ref = d.ref) :
    ∀ n : Node, (n.update r g).lookup r = (n.lookup r).map (fun e => g e.1 e.2)
  | .text _ => by simp [Node.update, Node.lookup]
  | .element d cs => by
    by_cases h : d.ref = r
    · simp [Node.update, Node.lookup, h, hg]
    · simp [Node.update, Node.lookup, h, lookupL_update r g hg cs]
theorem lookupL_update (r : Nat) (g : ElementData → List Node → Element)
    (hg : ∀ d cs, (g d cs).1.ref = d.ref) :
    ∀ l : List Node, lookupL r (updateL r g l) = (lookupL r l).map (fun e => g e.1 e.2)
  | [] => by simp [updateL, lookupL]
  | n :: ns => by
    simp only [updateL, lookupL, Node.lookup_update r g hg n]
    cases n.lookup r <;> simp [lookupL_update r g hg ns]
end

theorem lookupL_updateData (r : Nat) (f : ElementData → ElementData)
    (hf : ∀ d, (f d).ref = d.ref) (page : List Node) :
    lookupL r (updateData r f page) = (lookupL r page).map (fun e => (f e.1, e.2)) := by
  unfold updateData
  rw [lookupL_update r _ (fun d _ => hf d)]

theorem mem_addToken (tok c : String) (l : List String) :
    c ∈ addToken tok l ↔ c = tok ∨ c ∈ l := by
  unfold addToken
  by_cases h : l.contains tok = true
  · have : tok ∈ l := by simpa using h
    simp only [h, if_true]
    constructor
    · exact Or.inr
    · rintro (rfl | h1)
      · exact this
      · exact h1
  · have hn : tok ∉ l := by simpa using h
    simp [hn, or_comm]

theorem mem_removeToken (tok c : String) (l : List String) :
    c ∈ removeToken tok l ↔ c ∈ l ∧ c ≠ tok := by
  simp [removeToken]

theorem addToken_of_mem (tok : String) (l : List String) (h : tok ∈ l) : addToken tok l = l := by
  simp [addToken, h]

theorem removeToken_of_not_mem (tok : String) (l : List String) (h : tok ∉ l) :
    removeToken tok l = l := by
  unfold removeToken
  rw [List.filter_eq_self]
  intro a ha
  have : a ≠ tok := fun e => h (e ▸ ha)
  simpa using this

theorem lookupL_classListAdd (r : Nat) (tok : String) (s : State) :
    lookupL r (classListAdd r tok s).body =
      (lookupL r s.body).map
        (fun e => ({ e.1 with classList := addToken tok e.1.classList }, e.2)) :=
  lookupL_updateData r (fun d => { d with classList := addToken tok d.classList })
    (fun _ => rfl) s.body

theorem lookupL_classListRemove (r : Nat) (tok : String) (s : State) :
    lookupL r (classListRemove r tok s).body =
      (lookupL r s.body).map
        (fun e => ({ e.1 with classList := removeToken tok e.1.classList }, e.2)) :=
  lookupL_updateData r (fun d => { d with classList := removeToken tok d.classList })
    (fun _ => rfl) s.body

theorem lookupL_requiredBlur (this : Nat) (s : State) (d : ElementData) (cs : List Node)
    (h : lookupL this s.body = some (d, cs)) :
    lookupL this (requiredBlur this s).body = some (blurData d, cs) := by
  unfold requiredBlur blurData
  rw [h]
  by_cases hv : truthy (trim d.value) = true
  · simp only [hv, if_true]
    rw [lookupL_classListAdd, lookupL_classListRemove, h]
    rfl
  · simp only [hv, Bool.false_eq_true, if_false]
    rw [lookupL_classListAdd, lookupL_classListRemove, h]
    rfl

theorem lookupL_setValue (r : Nat) (v : String) (s : State) (d : ElementData) (cs : List Node)
    (h : lookupL r s.body = some (d, cs)) :
    lookupL r (setValue r v s).body = some ({ d with value := v }, cs) := by
  have := lookupL_updateData r (fun d => { d with value := v }) (fun _ => rfl) s.body
  rw [h] at this
  exact this

theorem blurData_value (d : ElementData) : (blurData d).value = d.value := by
  unfold blurData
  split <;> rfl

theorem blurData_valid (d : ElementData) (h : trim d.value ≠ "") :
    "is-valid" ∈ (blurData d).classList ∧ "is-invalid" ∉ (blurData d).classList := by
  have ht : truthy (trim d.value) = true := by simpa [truthy] using h
  simp only [blurData, ht, if_true]
  constructor
  · exact (mem_addToken _ _ _).2 (Or.inl rfl)
  · intro hm
    rcases (mem_addToken _ _ _).1 hm with h1 | h1
    · exact absurd h1 (by decide)
    · exact ((mem_removeToken _ _ _).1 h1).2 rfl

theorem blurData_invalid (d : ElementData) (h : trim d.value = "") :
    "is-invalid" ∈ (blurData d).classList ∧ "is-valid" ∉ (blurData d).classList := by
  have ht : truthy (trim d.value) = false := by simp [truthy, h]
  simp only [blurData, ht]
  constructor
  · exact (mem_addToken _ _ _).2 (Or.inl rfl)
  · intro hm
    rcases (mem_addToken _ _ _).1 hm with h1 | h1
    · exact absurd h1 (by decide)
    · exact ((mem_removeToken _ _ _).1 h1).2 rfl

theorem blurData_fixed_invalid (d : ElementData) (ht : truthy (trim d.value) = false)
    (h1 : "is-invalid" ∈ d.classList) (h2 : "is-valid" ∉ d.classList) : blurData d = d := by
  unfold blurData
  simp only [ht, Bool.false_eq_true, if_false]
  rw [removeToken_of_not_mem _ _ h2, addToken_of_mem _ _ h1]

theorem blurData_fixed_valid (d : ElementData) (ht : truthy (trim d.value) = true)
    (h1 : "is-valid" ∈ d.classList) (h2 : "is-invalid" ∉ d.classList) : blurData d = d := by
  unfold blurData
  simp only [ht, if_true]
  rw [removeToken_of_not_mem _ _ h2, addToken_of_mem _ _ h1]

theorem blurData_idem (d : ElementData) : blurData (blurData d) = blurData d := by
  by_cases h : trim d.value = ""
  · have h2 := blurData_invalid d h
    have ht : truthy (trim d.value) = false := by simp [truthy, h]
    exact blurData_fixed_invalid _ (by rw [blurData_value]; exact ht) h2.1 h2.2
  · have h2 := blurData_valid d h
    have ht : truthy (trim d.value) = true := by simpa [truthy] using h
    exact blurData_fixed_valid _ (by rw [blurData_value]; exact ht) h2.1 h2.2

theorem blurData_other (d : ElementData) (c : String) (h1 : c ≠ "is-valid")
    (h2 : c ≠ "is-invalid") : c ∈ (blurData d).classList ↔ c ∈ d.classList := by
  unfold blurData
  split
  · simp only [mem_addToken, mem_removeToken]
    tauto
  · simp only [mem_addToken, mem_removeToken]
    tauto

theorem validity_of_lookup (r : Nat) (s : State) (d : ElementData) (cs : List Node)
    (h : lookupL r s.body = some (d, cs)) :
    validity r s = some (d.classList.contains "is-valid", d.classList.contains "is-invalid") := by
  simp [validity, classListOf, h]

theorem validity_requiredBlur (this : Nat) (s : State) (d : ElementData) (cs : List Node)
    (h : lookupL this s.body = some (d, cs)) :
    validity this (requiredBlur this s) =
      some (decide (trim d.value ≠ ""), decide (trim d.value = "")) := by
  rw [validity_of_lookup this _ _ _ (lookupL_requiredBlur this s d cs h)]
  by_cases hv : trim d.value = ""
  · have h2 := blurData_invalid d hv
    simp [hv, h2.1, h2.2]
  · have h2 := blurData_valid d hv
    simp [hv, h2.1, h2.2]

/-! ## Field validation (C2, C10) -/

/-- C2: for a required input `this` of the page, with data `d` before the blur: after the blur
handler ran the input carries `is-invalid` and not `is-valid` when the trimmed value is empty, and
`is-valid` and not `is-invalid` otherwise, and its value is untouched; any other state in which
the input has the same value gives the same two flags, whatever classes it carried; and blurring
with a white-space-only value, then with `"x"`, then with the empty value gives invalid, valid,
invalid. -/
theorem requiredBlur_recomputes (this : Nat) (s : State) (d : ElementData) (cs : List Node)
    (h : lookupL this s.body = some (d, cs)) :
    (∃ d1, lookupL this (requiredBlur this s).body = some (d1, cs) ∧ d1.value = d.value ∧
      (if trim d.value = "" then "is-invalid" ∈ d1.classList ∧ "is-valid" ∉ d1.classList
       else "is-valid" ∈ d1.classList ∧ "is-invalid" ∉ d1.classList)) ∧
    (∀ (s2 : State) (d2 : ElementData) (cs2 : List Node),
      lookupL this s2.body = some (d2, cs2) → d2.value = d.value →
        validity this (requiredBlur this s2) = validity this (requiredBlur this s)) ∧
    (∀ w : String, trim w = "" →
      validity this (requiredBlur this (setValue this w s)) = some (false, true) ∧
      validity this
          (requiredBlur this (setValue this "x" (requiredBlur this (setValue this w s)))) =
        some (true, false) ∧
      validity this
          (requiredBlur this (setValue this ""
            (requiredBlur this (setValue this "x" (requiredBlur this (setValue this w s)))))) =
        some (false, true)) := by
  refine ⟨⟨blurData d, lookupL_requiredBlur this s d cs h, blurData_value d, ?_⟩, ?_, ?_⟩
  · by_cases hv : trim d.value = ""
    · simpa [hv] using blurData_invalid d hv
    · simpa [hv] using blurData_valid d hv
  · intro s2 d2 cs2 h2 hval
    rw [validity_requiredBlur this s2 d2 cs2 h2, validity_requiredBlur this s d cs h, hval]
  · intro w hw
    have e1 := lookupL_setValue this w s d cs h
    have e2 := lookupL_requiredBlur this _ _ _ e1
    have e3 := lookupL_setValue this "x" _ _ _ e2
    have e4 := lookupL_requiredBlur this _ _ _ e3
    have e5 := lookupL_setValue this "" _ _ _ e4
    have hx : trim "x" ≠ "" := by decide
    have h0 : trim "" = "" := by decide
    refine ⟨?_, ?_, ?_⟩
    · rw [validity_requiredBlur this _ _ _ e1]
      simp [hw]
    · rw [validity_requiredBlur this _ _ _ e3]
      simp [hx]
    · rw [validity_requiredBlur this _ _ _ e5]
      simp [h0]

/-- The required input of `inputPage` holds white space only and carries a stale `is-valid`:
its blur handler marks it invalid. -/
theorem requiredBlur_recomputes_witness :
    lookupL 1 inputPage.body =
        some (⟨1, "input", ["form-control", "is-valid"], [("required", "")], " \t"⟩, []) ∧
      validity 1 (requiredBlur 1 (setValue 1 "  " inputPage)) = some (false, true) :=
  ⟨rfl, ((requiredBlur_recomputes 1 inputPage _ _ rfl).2.2 "  " (by decide)).1⟩

/-- C10: for a required input `this` of the page, whatever classes `d.classList` it carries:
after its blur handler ran exactly one of `is-valid` and `is-invalid` is present, every other
class is present exactly when it was before, and a second run of the handler leaves the element,
class list included, as the first run left it. -/
theorem requiredBlur_exactly_one (this : Nat) (s : State) (d : ElementData) (cs : List Node)
    (h : lookupL this s.body = some (d, cs)) :
    ∃ d1, lookupL this (requiredBlur this s).body = some (d1, cs) ∧
      Xor' ("is-valid" ∈ d1.classList) ("is-invalid" ∈ d1.classList) ∧
      (∀ c, c ≠ "is-valid" → c ≠ "is-invalid" → (c ∈ d1.classList ↔ c ∈ d.classList)) ∧
      lookupL this (requiredBlur this (requiredBlur this s)).body = some (d1, cs) := by
  have e1 := lookupL_requiredBlur this s d cs h
  refine ⟨blurData d, e1, ?_, fun c => blurData_other d c, ?_⟩
  · by_cases hv : trim d.value = ""
    · exact Or.inr ⟨(blurData_invalid d hv).1, (blurData_invalid d hv).2⟩
    · exact Or.inl ⟨(blurData_valid d hv).1, (blurData_valid d hv).2⟩
  · rw [lookupL_requiredBlur this _ _ _ e1, blurData_idem]

/-- On `inputPage` the blur handler replaces the stale `is-valid` by `is-invalid` and keeps
`form-control`. -/
theorem requiredBlur_exactly_one_witness :
    lookupL 1 inputPage.body =
        some (⟨1, "input", ["form-control", "is-valid"], [("required", "")], " \t"⟩, []) ∧
      ∃ d1, lookupL 1 (requiredBlur 1 inputPage).body = some (d1, []) ∧
        Xor' ("is-valid" ∈ d1.classList) ("is-invalid" ∈ d1.classList) ∧
        (∀ c, c ≠ "is-valid" → c ≠ "is-invalid" →
          (c ∈ d1.classList ↔
            c ∈ (⟨1, "input", ["form-control", "is-valid"], [("required", "")], " \t"⟩ :
              ElementData).classList)) ∧
        lookupL 1 (requiredBlur 1 (requiredBlur 1 inputPage)).body = some (d1, []) :=
  ⟨rfl, requiredBlur_exactly_one 1 inputPage _ _ rfl⟩

/-! ## The DOM: document order -/

theorem elementsL_append (a b : List Node) : elementsL (a ++ b) = elementsL a ++ elementsL b := by
  induction a with
  | nil => simp [elementsL]
  | cons n ns ih => simp [elementsL, ih]

theorem querySelectorAll_append (sel : Selector) (a b : List Node) :
    querySelectorAll sel (a ++ b) = querySelectorAll sel a ++ querySelectorAll sel b := by
  simp [querySelectorAll, elementsL_append]

theorem overlayCount_append (a b : List Node) :
    overlayCount (a ++ b) = overlayCount a + overlayCount b := by
  simp [overlayCount, querySelectorAll_append]

theorem overlayCount_overlayNode (r : Nat) : overlayCount [overlayNode r] = 1 := by
  simp [overlayCount, querySelectorAll, overlayNode, elementsL, Node.elements, Selector.matches]

theorem outlineL_append (depth : Nat) (a b : List Node) :
    outlineL depth (a ++ b) = outlineL depth a ++ outlineL depth b := by
  induction a with
  | nil => simp [outlineL]
  | cons n ns ih => simp [outlineL, ih]

theorem map_bump_eq_some (o : Option (List Nat)) (p : List Nat) (h : o.map bump = some p) :
    ∃ q, o = some q ∧ p = bump q := by
  cases o with
  | none => simp at h
  | some q => exact ⟨q, rfl, by simpa using h.symm⟩

mutual
theorem Node.findPath_none (sel : Selector) :
    ∀ n : Node, n.findPath sel = none → ∀ e ∈ (elementsL [n]).tail, sel.matches e.1 = false
  | .text _ => by simp [elementsL, Node.elements]
  | .element d cs => by
    intro h e he
    have he2 : e ∈ elementsL cs := by simpa [elementsL, Node.elements] using he
    exact findPathL_none sel cs (by simpa [Node.findPath] using h) e he2
theorem findPathL_none (sel : Selector) :
    ∀ l : List Node, findPathL sel l = none → ∀ e ∈ elementsL l, sel.matches e.1 = false
  | [] => by simp [elementsL]
  | .text t :: ns => by
    intro h e he
    have h1 : findPathL sel ns = none := by simpa [findPathL] using h
    have he2 : e ∈ elementsL ns := by simpa [elementsL, Node.elements] using he
    exact findPathL_none sel ns h1 e he2
  | .element d cs :: ns => by
    intro h e he
    by_cases hm : sel.matches d = true
    · simp [findPathL, hm] at h
    · have hm2 : sel.matches d = false := by simpa using hm
      simp only [findPathL, hm2, Bool.false_eq_true, if_false] at h
      cases hc : Node.findPath sel (.element d cs) with
      | some p => simp [hc] at h
      | none =>
        simp only [hc, Option.map_eq_none'] at h
        simp only [elementsL, Node.elements, List.mem_append, List.mem_cons] at he
        rcases he with (rfl | he1) | he2
        · exact hm2
        · exact Node.findPath_none sel (.element d cs) hc e (by
            simpa [elementsL, Node.elements] using he1)
        · exact findPathL_none sel ns h e he2
end

mutual
theorem Node.mem_outline_element :
    ∀ (n : Node) (depth : Nat) (x : Nat × Label) (e : ElementData),
      x ∈ n.outline depth → x.2 = .element e → ∃ cs, (e, cs) ∈ n.elements
  | .text t, depth, x, e => by
    intro hx he
    simp only [Node.outline, List.mem_singleton] at hx
    subst hx
    simp at he
  | .element d cs, depth, x, e => by
    intro hx he
    simp only [Node.outline, List.mem_cons] at hx
    rcases hx with rfl | hx
    · simp only [Label.element.injEq] at he
      subst he
      exact ⟨cs, by simp [Node.elements]⟩
    · obtain ⟨cs1, h1⟩ := mem_outlineL_element cs (depth + 1) x e hx he
      exact ⟨cs1, by simp [Node.elements, h1]⟩
theorem mem_outlineL_element :
    ∀ (l : List Node) (depth : Nat) (x : Nat × Label) (e : ElementData),
      x ∈ outlineL depth l → x.2 = .element e → ∃ cs, (e, cs) ∈ elementsL l
  | [], depth, x, e => by simp [outlineL]
  | n :: ns, depth, x, e => by
    intro hx he
    simp only [outlineL, List.mem_append] at hx
    rcases hx with hx | hx
    · obtain ⟨cs1, h1⟩ := Node.mem_outline_element n depth x e hx he
      exact ⟨cs1, by simp [elementsL, h1]⟩
    · obtain ⟨cs1, h1⟩ := mem_outlineL_element ns depth x e hx he
      exact ⟨cs1, by simp [elementsL, h1]⟩
end

theorem outlineL_no_match (sel : Selector) (l : List Node) (depth : Nat)
    (h : findPathL sel l = none) :
    ∀ x ∈ outlineL depth l, ∀ e, x.2 = .element e → sel.matches e = false := by
  intro x hx e he
  obtain ⟨cs, hcs⟩ := mem_outlineL_element l depth x e hx he
  exact findPathL_none sel l h (e, cs) hcs

theorem getAtL_bump (q : List Nat) (n : Node) (ns : List Node) (m : Node)
    (h : getAtL q ns = some m) : getAtL (bump q) (n :: ns) = some m := by
  cases q with
  | nil => cases ns <;> simp [getAtL] at h
  | cons i q => simpa [bump, getAtL] using h

theorem removeAtL_bump (q : List Nat) (n : Node) (ns : List Node) (m : Node)
    (h : getAtL q ns = some m) : removeAtL (bump q) (n :: ns) = n :: removeAtL q ns := by
  cases q with
  | nil => cases ns <;> simp [getAtL] at h
  | cons i q => simp [bump, removeAtL]

mutual
theorem Node.findPath_spec (sel : Selector) :
    ∀ (n : Node) (depth : Nat) (p : List Nat), n.findPath sel = some p →
      ∃ d cs k A B, n.getAt p = some (.element d cs) ∧ sel.matches d = true ∧
        (d, cs) ∈ (n.elements).tail ∧
        (n.outline depth).tail = A ++ Node.outline k (.element d cs) ++ B ∧
        (∀ x ∈ A, ∀ e, x.2 = .element e → sel.matches e = false) ∧
        ((n.removeAt p).outline depth).tail = A ++ B
  | .text _, depth, p => by simp [Node.findPath]
  | .element d0 cs0, depth, p => by
    intro h
    obtain ⟨d, cs, k, A, B, h1, h2, h3, h4, h5, h6⟩ :=
      findPathL_spec sel cs0 (depth + 1) p (by simpa [Node.findPath] using h)
    exact ⟨d, cs, k, A, B, by simpa [Node.getAt] using h1, h2,
      by simpa [Node.elements] using h3, by simpa [Node.outline] using h4, h5,
      by simpa [Node.removeAt, Node.outline] using h6⟩
theorem findPathL_spec (sel : Selector) :
    ∀ (l : List Node) (depth : Nat) (p : List Nat), findPathL sel l = some p →
      ∃ d cs k A B, getAtL p l = some (.element d cs) ∧ sel.matches d = true ∧
        (d, cs) ∈ elementsL l ∧
        outlineL depth l = A ++ Node.outline k (.element d cs) ++ B ∧
        (∀ x ∈ A, ∀ e, x.2 = .element e → sel.matches e = false) ∧
        outlineL depth (removeAtL p l) = A ++ B
  | [], depth, p => by simp [findPathL]
  | .text t :: ns, depth, p => by
    intro h
    obtain ⟨q, hq, rfl⟩ := map_bump_eq_some _ _ (by simpa [findPathL] using h)
    obtain ⟨d, cs, k, A, B, h1, h2, h3, h4, h5, h6⟩ := findPathL_spec sel ns depth q hq
    refine ⟨d, cs, k, (depth, .text t) :: A, B, getAtL_bump q _ ns _ h1, h2, ?_, ?_, ?_, ?_⟩
    · simp [elementsL, Node.elements, h3]
    · simp [outlineL, Node.outline, h4]
    · intro x hx e he
      rcases List.mem_cons.1 hx with rfl | hx
      · simp at he
      · exact h5 x hx e he
    · rw [removeAtL_bump q _ ns _ h1]
      simp [outlineL, Node.outline, h6]
  | .element d0 cs0 :: ns, depth, p => by
    intro h
    by_cases hm : sel.matches d0 = true
    · have hp : p = [0] := by simpa [findPathL, hm] using h.symm
      subst hp
      exact ⟨d0, cs0, depth, [], outlineL depth ns, by simp [getAtL], hm,
        by simp [elementsL, Node.elements], by simp [outlineL], by simp, by simp [removeAtL]⟩
    · have hm2 : sel.matches d0 = false := by simpa using hm
      simp only [findPathL, hm2, Bool.false_eq_true, if_false] at h
      cases hc : Node.findPath sel (.element d0 cs0) with
      | some q =>
        have hp : p = 0 :: q := by simpa [hc] using h.symm
        subst hp
        obtain ⟨d, cs, k, A, B, h1, h2, h3, h4, h5, h6⟩ :=
          Node.findPath_spec sel (.element d0 cs0) depth q hc
        have hq : q ≠ [] := by
          rintro rfl
          cases cs0 <;> simp [Node.getAt, getAtL] at h1
        obtain ⟨i, q1, rfl⟩ := List.exists_cons_of_ne_nil hq
        refine ⟨d, cs, k, (depth, .element d0) :: A, B ++ outlineL depth ns, ?_, h2, ?_, ?_, ?_, ?_⟩
        · cases i <;> simpa [getAtL] using h1
        · simp only [Node.elements, List.tail_cons] at h3
          simp [elementsL, Node.elements, h3]
        · simp only [Node.outline, List.tail_cons] at h4
          simp [outlineL, Node.outline, h4]
        · intro x hx e he
          rcases List.mem_cons.1 hx with rfl | hx
          · simp only [Label.element.injEq] at he
            subst he
            exact hm2
          · exact h5 x hx e he
        · simp only [Node.removeAt, Node.outline, List.tail_cons] at h6
          cases i <;> simp [removeAtL, Node.removeAt, outlineL, Node.outline, h6]
      | none =>
        obtain ⟨q, hq, rfl⟩ := map_bump_eq_some _ _ (by simpa [hc] using h)
        obtain ⟨d, cs, k, A, B, h1, h2, h3, h4, h5, h6⟩ := findPathL_spec sel ns depth q hq
        have hnone : findPathL sel [.element d0 cs0] = none := by
          simp [findPathL, hm2, hc]
        refine ⟨d, cs, k, Node.outline depth (.element d0 cs0) ++ A, B,
          getAtL_bump q _ ns _ h1, h2, ?_, ?_, ?_, ?_⟩
        · simp [elementsL, h3]
        · simp [outlineL, h4]
        · intro x hx e he
          rcases List.mem_append.1 hx with hx | hx
          · exact outlineL_no_match sel _ depth hnone x (by simpa [outlineL] using hx) e he
          · exact h5 x hx e he
        · rw [removeAtL_bump q _ ns _ h1]
          simp [outlineL, h6]
end

theorem findPathL_eq_none_iff (sel : Selector) (l : List Node) :
    findPathL sel l = none ↔ querySelectorAll sel l = [] := by
  constructor
  · intro h
    simp only [querySelectorAll, List.filter_eq_nil_iff]
    intro e he
    simp [findPathL_none sel l h e he]
  · intro h
    cases hp : findPathL sel l with
    | none => rfl
    | some p =>
      obtain ⟨d, cs, _, _, _, _, h2, h3, _⟩ := findPathL_spec sel l 0 p hp
      have : (d, cs) ∈ querySelectorAll sel l := by
        simp [querySelectorAll, h3, h2]
      simp [h] at this

theorem findPathL_append_match (sel : Selector) (d : ElementData) (cs rest : List Node)
    (hd : sel.matches d = true) :
    ∀ a : List Node, findPathL sel a = none →
      findPathL sel (a ++ .element d cs :: rest) = some [a.length]
  | [], _ => by simp [findPathL, hd]
  | .text t :: a, h => by
    have h1 : findPathL sel a = none := by simpa [findPathL] using h
    simp [findPathL, findPathL_append_match sel d cs rest hd a h1, bump]
  | .element d0 cs0 :: a, h => by
    by_cases hm : sel.matches d0 = true
    · simp [findPathL, hm] at h
    · have hm2 : sel.matches d0 = false := by simpa using hm
      simp only [findPathL, hm2, Bool.false_eq_true, if_false] at h
      cases hc : Node.findPath sel (.element d0 cs0) with
      | some p => simp [hc] at h
      | none =>
        have h1 : findPathL sel a = none := by simpa [hc] using h
        simp [findPathL, hm2, hc, findPathL_append_match sel d cs rest hd a h1, bump]

theorem removeAtL_length (n : Node) (rest : List Node) :
    ∀ a : List Node, removeAtL [a.length] (a ++ n :: rest) = a ++ rest
  | [] => by simp [removeAtL]
  | x :: a => by simp [removeAtL, removeAtL_length n rest a]

/-! ## The loading overlay (C1, C8) -/

theorem hideLoading_append_overlay (s : State) (r : Nat) (rest : List Node)
    (h : overlayCount s.body = 0) :
    hideLoading { s with body := s.body ++ overlayNode r :: rest } =
      { s with body := s.body ++ rest } := by
  have hnone : findPathL (.cls "loading-overlay") s.body = none := by
    rw [findPathL_eq_none_iff]
    exact List.length_eq_zero.1 h
  obtain ⟨cs, hcs⟩ : ∃ cs, overlayNode r = .element ⟨r, "div", ["loading-overlay"], [], ""⟩ cs :=
    ⟨_, rfl⟩
  have hfind := findPathL_append_match (.cls "loading-overlay")
    ⟨r, "div", ["loading-overlay"], [], ""⟩ cs rest (by simp [Selector.matches]) s.body hnone
  unfold hideLoading querySelector
  simp only [hcs, hfind, removeAtL_length]

/-- C1: for every page without an element of class `loading-overlay`, `showLoading` followed by
`hideLoading` gives back the same list of nodes, which holds zero overlay elements, and
`showLoading`, `showLoading`, `hideLoading` leaves the page followed by the second overlay, which
holds exactly one overlay element. -/
theorem show_hide_overlay_count (s : State) (h : overlayCount s.body = 0) :
    (hideLoading (showLoading s)).body = s.body ∧
      overlayCount (hideLoading (showLoading s)).body = 0 ∧
      (hideLoading (showLoading (showLoading s))).body = s.body ++ [overlayNode (s.nextRef + 3)] ∧
      overlayCount (hideLoading (showLoading (showLoading s))).body = 1 := by
  have e1 : (hideLoading (showLoading s)).body = s.body := by
    have := hideLoading_append_overlay { s with nextRef := s.nextRef + 3 } s.nextRef [] h
    simp only [showLoading]
    rw [this]
    simp
  have e2 : (hideLoading (showLoading (showLoading s))).body =
      s.body ++ [overlayNode (s.nextRef + 3)] := by
    have := hideLoading_append_overlay { s with nextRef := s.nextRef + 3 + 3 } s.nextRef
      [overlayNode (s.nextRef + 3)] h
    simp only [showLoading, List.append_assoc, List.singleton_append]
    rw [this]
  refine ⟨e1, ?_, e2, ?_⟩
  · rw [e1]; exact h
  · rw [e2, overlayCount_append, h, overlayCount_overlayNode]

/-- On `plainPage`, which has no overlay, show then hide gives the page back. -/
theorem show_hide_overlay_count_witness :
    overlayCount plainPage.body = 0 ∧
      (hideLoading (showLoading plainPage)).body = plainPage.body ∧
      overlayCount (hideLoading (showLoading (showLoading plainPage))).body = 1 :=
  ⟨by decide, (show_hide_overlay_count plainPage (by decide)).1,
    (show_hide_overlay_count plainPage (by decide)).2.2.2⟩

/-- C8, as stated, fails on `nestedOverlays`: the first overlay (at position `[0]`) holds a
second overlay, the element `1`; `hideLoading` leaves only the text node, so the later overlay
did not remain and the number of overlays dropped from two to zero. -/
theorem hideLoading_nested_overlay_removed :
    querySelector (.cls "loading-overlay") nestedOverlays.body = some [0] ∧
      (lookupL 1 nestedOverlays.body).isSome = true ∧
      overlayCount nestedOverlays.body = 2 ∧
      (hideLoading nestedOverlays).body = [.text "after"] ∧
      (lookupL 1 (hideLoading nestedOverlays).body).isSome = false ∧
      overlayCount (hideLoading nestedOverlays).body = 0 :=
  ⟨by decide, by decide, by decide, rfl, by decide, by decide⟩

/-- C8, amended: `hideLoading` never fails; on a page without an overlay it changes nothing;
otherwise it detaches the first element of class `loading-overlay` in document order together
with its subtree and nothing else: the document-order listing of the page (every node with its
depth) is `A`, then the listing of that subtree, then `B`, with no overlay in `A`, and the
listing after the call is `A` followed by `B`, so every node outside the removed subtree, the
later overlays outside it included, stays in place in the same order. -/
theorem hideLoading_removes_first_subtree (s : State) :
    (overlayCount s.body = 0 → hideLoading s = s) ∧
    (overlayCount s.body ≠ 0 → ∃ p d cs k A B,
      querySelector (.cls "loading-overlay") s.body = some p ∧
      getAtL p s.body = some (.element d cs) ∧ "loading-overlay" ∈ d.classList ∧
      hideLoading s = { s with body := removeAtL p s.body } ∧
      outlineL 0 s.body = A ++ Node.outline k (.element d cs) ++ B ∧
      (∀ x ∈ A, ∀ e, x.2 = .element e → "loading-overlay" ∉ e.classList) ∧
      outlineL 0 (hideLoading s).body = A ++ B) := by
  constructor
  · intro h
    have hnone : findPathL (.cls "loading-overlay") s.body = none := by
      rw [findPathL_eq_none_iff]
      exact List.length_eq_zero.1 h
    simp [hideLoading, querySelector, hnone]
  · intro h
    cases hp : findPathL (.cls "loading-overlay") s.body with
    | none =>
      exact absurd (by
        rw [overlayCount, (findPathL_eq_none_iff _ _).1 hp]; rfl) h
    | some p =>
      obtain ⟨d, cs, k, A, B, h1, h2, _, h4, h5, h6⟩ :=
        findPathL_spec (.cls "loading-overlay") s.body 0 p hp
      have hh : hideLoading s = { s with body := removeAtL p s.body } := by
        simp [hideLoading, querySelector, hp]
      refine ⟨p, d, cs, k, A, B, hp, h1, by simpa [Selector.matches] using h2, hh, h4, ?_, ?_⟩
      · intro x hx e he
        simpa [Selector.matches] using h5 x hx e he
      · rw [hh]
        exact h6

/-- On `plainPage` after two `showLoading` calls the first of the two sibling overlays goes and
the listing of the rest is unchanged. -/
theorem hideLoading_removes_first_subtree_witness :
    overlayCount (showLoading (showLoading plainPage)).body = 2 ∧
      overlayCount (hideLoading (showLoading (showLoading plainPage))).body = 1 ∧
      ∃ p d cs k A B,
        querySelector (.cls "loading-overlay") (showLoading (showLoading plainPage)).body =
          some p ∧
        getAtL p (showLoading (showLoading plainPage)).body = some (.element d cs) ∧
        "loading-overlay" ∈ d.classList ∧
        hideLoading (showLoading (showLoading plainPage)) =
          { showLoading (showLoading plainPage) with
            body := removeAtL p (showLoading (showLoading plainPage)).body } ∧
        outlineL 0 (showLoading (showLoading plainPage)).body =
          A ++ Node.outline k (.element d cs) ++ B ∧
        (∀ x ∈ A, ∀ e, x.2 = .element e → "loading-overlay" ∉ e.classList) ∧
        outlineL 0 (hideLoading (showLoading (showLoading plainPage))).body = A ++ B :=
  ⟨by decide, by decide,
    (hideLoading_removes_first_subtree (showLoading (showLoading plainPage))).2 (by decide)⟩

/-! ## Bootstrap wiring -/

theorem initTooltipsMap_ok (env : Env) :
    ∀ (es : List Element) (s s1 : State), initTooltipsMap env es s = .ok s1 →
      s1 = { s with tooltips := s.tooltips ++ es.map (fun e => e.1.ref) }
  | [], s, s1, h => by
    simp only [initTooltipsMap, Except.ok.injEq] at h
    subst h
    simp
  | e :: es, s, s1, h => by
    by_cases hb : env.bootstrapLoaded = true
    · simp only [initTooltipsMap, newTooltip, hb, if_true] at h
      rw [initTooltipsMap_ok env es _ s1 h]
      simp
    · simp [initTooltipsMap, newTooltip, hb] at h

theorem foldl_addEventListener (event : String) (t : Element → Nat) (hd : Element → Handler) :
    ∀ (l : List Element) (s : State),
      l.foldl (fun s e => addEventListener (t e) event (hd e) s) s =
        { s with listeners := s.listeners ++ l.map (fun e => ⟨t e, event, hd e⟩) }
  | [], s => by simp
  | e :: l, s => by
    simp only [List.foldl_cons]
    rw [foldl_addEventListener event t hd l]
    simp [addEventListener]

theorem domContentLoaded_ok (env : Env) (s s1 : State) (h : domContentLoaded env s = .ok s1) :
    s1.listeners = s.listeners ++ wiredListeners s.body ∧ s1.body = s.body := by
  unfold domContentLoaded at h
  cases ht : initTooltips env s with
  | error err => simp [ht] at h
  | ok s2 =>
    have h2 := initTooltipsMap_ok env _ s s2 ht
    simp only [ht] at h
    rw [foldl_addEventListener "click" (fun e => e.1.ref)
        (fun e => .copyClick e.1.ref (trim (textContentL e.2))),
      foldl_addEventListener "submit" (fun e => e.1.ref) (fun _ => .formSubmit),
      foldl_addEventListener "blur" (fun e => e.1.ref) (fun _ => .requiredBlur)] at h
    simp only [Except.ok.injEq] at h
    subst h
    subst h2
    simp [wiredListeners]

theorem domContentLoaded_ok_iff (env : Env) (s : State) :
    (∃ s1, domContentLoaded env s = .ok s1) ↔
      env.bootstrapLoaded = true ∨
        querySelectorAll (.attrEq "data-bs-toggle" "tooltip") s.body = [] := by
  have key : ∀ (es : List Element) (s : State),
      (∃ s1, initTooltipsMap env es s = .ok s1) ↔ env.bootstrapLoaded = true ∨ es = [] := by
    intro es
    induction es with
    | nil => intro s; simp [initTooltipsMap]
    | cons e es ih =>
      intro s
      by_cases hb : env.bootstrapLoaded = true
      · simp only [initTooltipsMap, newTooltip, hb, if_true, ih, true_or]
      · simp [initTooltipsMap, newTooltip, hb]
  rw [← key _ s]
  unfold domContentLoaded initTooltips
  cases initTooltipsMap env (querySelectorAll (.attrEq "data-bs-toggle" "tooltip") s.body) s <;>
    simp

theorem filter_ref_eq_singleton :
    ∀ (l : List Element), (l.map (fun e => e.1.ref)).Nodup → ∀ e ∈ l,
      l.filter (fun x => x.1.ref == e.1.ref) = [e]
  | [], _, e, he => by simp at he
  | x :: l, hnd, e, he => by
    simp only [List.map_cons, List.nodup_cons] at hnd
    rcases List.mem_cons.1 he with rfl | he1
    · have hrest : l.filter (fun x => x.1.ref == e.1.ref) = [] := by
        simp only [List.filter_eq_nil_iff, beq_iff_eq]
        intro y hy hye
        exact hnd.1 (hye ▸ List.mem_map_of_mem (fun e => e.1.ref) hy)
      simp [List.filter_cons, hrest]
    · have hne : x.1.ref ≠ e.1.ref := by
        intro hxe
        exact hnd.1 (hxe ▸ List.mem_map_of_mem (fun e => e.1.ref) he1)
      simp [List.filter_cons, hne, filter_ref_eq_singleton l hnd.2 e he1]

theorem querySelectorAll_refs_nodup (sel : Selector) (page : List Node) (h : RefsDistinct page) :
    ((querySelectorAll sel page).map (fun e => e.1.ref)).Nodup :=
  List.Nodup.sublist (List.Sublist.map _ (List.filter_sublist _)) h

theorem filter_map_listener (event ev : String) (hd : Element → Handler) (r : Nat) :
    ∀ l : List Element,
      (l.map (fun e => (⟨e.1.ref, ev, hd e⟩ : Listener))).filter
          (fun x => x.target == r && x.event == event) =
        if ev = event then
          (l.filter (fun e => e.1.ref == r)).map (fun e => (⟨e.1.ref, ev, hd e⟩ : Listener))
        else []
  | [] => by simp
  | e :: l => by
    have ih := filter_map_listener event ev hd r l
    by_cases hev : ev = event
    · simp only [hev, if_true] at ih ⊢
      by_cases hr : e.1.ref = r
      · simp [List.filter_cons, hr, ih]
      · simp [List.filter_cons, hr, ih]
    · simp only [hev, if_false] at ih ⊢
      simp [List.filter_cons, hev, ih]

/-! ## Clipboard copy (C6) -/

theorem eraseIdx_append_singleton (l : List Node) (x : Node) :
    (l ++ [x]).eraseIdx l.length = l := by
  rw [List.eraseIdx_append_of_length_le (Nat.le_refl _)]
  simp

theorem copyToClipboard_modern (env : Env) (text : String) (s : State) (w : String → Promise)
    (h : env.writeText = some w) :
    copyToClipboard env text s =
      (w text, { s with trace := s.trace ++ [.copyToClipboard text, .writeText text] }) := by
  simp [copyToClipboard, h, logCall]

theorem copyToClipboard_fallback (env : Env) (text : String) (s : State)
    (h : env.writeText = none) :
    copyToClipboard env text s =
      (.settled .fulfilled,
        { s with
          nextRef := s.nextRef + 1
          trace := s.trace ++ [.copyToClipboard text, .appendChild "textarea", .select,
            .execCommand "copy" (env.execCommand "copy"), .removeChild "textarea"] }) := by
  simp [copyToClipboard, h, logCall, appendChild, removeChild, eraseIdx_append_singleton]

theorem writeText_eq_some_iff (env : Env) (w : String → Promise) :
    env.writeText = some w ↔ ∃ c, env.clipboard = some c ∧ c.writeText = some w := by
  unfold Env.writeText
  cases env.clipboard <;> simp

theorem writeText_eq_none_iff (env : Env) :
    env.writeText = none ↔
      env.clipboard = none ∨ ∃ c, env.clipboard = some c ∧ c.writeText = none := by
  unfold Env.writeText
  cases env.clipboard <;> simp

/-- C6: for every text and state.  When `navigator.clipboard` exists and has `writeText`,
`copyToClipboard` returns the promise `writeText(text)` produced, the body is untouched and no
DOM call is made (the trace gains the call itself and `writeText` only).  When it does not,
`copyToClipboard` returns an already fulfilled promise whatever `execCommand` returned, the body
after the call is the body before it, and in between the text area was appended and removed. -/
theorem copyToClipboard_modern_or_fallback (env : Env) (text : String) (s : State) :
    (∀ c w, env.clipboard = some c → c.writeText = some w →
      (copyToClipboard env text s).1 = w text ∧
      (copyToClipboard env text s).2.body = s.body ∧
      (copyToClipboard env text s).2.trace =
        s.trace ++ [.copyToClipboard text, .writeText text]) ∧
    ((env.clipboard = none ∨ ∃ c, env.clipboard = some c ∧ c.writeText = none) →
      (copyToClipboard env text s).1 = .settled .fulfilled ∧
      (copyToClipboard env text s).2.body = s.body ∧
      (copyToClipboard env text s).2.trace =
        s.trace ++ [.copyToClipboard text, .appendChild "textarea", .select,
          .execCommand "copy" (env.execCommand "copy"), .removeChild "textarea"]) := by
  constructor
  · intro c w hc hw
    rw [copyToClipboard_modern env text s w ((writeText_eq_some_iff env w).2 ⟨c, hc, hw⟩)]
    exact ⟨rfl, rfl, rfl⟩
  · intro h
    rw [copyToClipboard_fallback env text s ((writeText_eq_none_iff env).2 h)]
    exact ⟨rfl, rfl, rfl⟩

/-- In `legacyEnv` the fallback runs although `execCommand` reports failure; in `modernEnv`
the pending promise of `writeText` is returned. -/
theorem copyToClipboard_modern_or_fallback_witness :
    ((copyToClipboard legacyEnv "bc1qxy" walletWired).1 = .settled .fulfilled ∧
      (copyToClipboard legacyEnv "bc1qxy" walletWired).2.body = walletWired.body ∧
      (copyToClipboard legacyEnv "bc1qxy" walletWired).2.trace =
        walletWired.trace ++ [.copyToClipboard "bc1qxy", .appendChild "textarea", .select,
          .execCommand "copy" (legacyEnv.execCommand "copy"), .removeChild "textarea"]) ∧
    ((copyToClipboard modernEnv "bc1qxy" walletWired).1 = .pending 7 ∧
      (copyToClipboard modernEnv "bc1qxy" walletWired).2.body = walletWired.body ∧
      (copyToClipboard modernEnv "bc1qxy" walletWired).2.trace =
        walletWired.trace ++ [.copyToClipboard "bc1qxy", .writeText "bc1qxy"]) :=
  ⟨(copyToClipboard_modern_or_fallback legacyEnv "bc1qxy" walletWired).2 (Or.inl rfl),
    (copyToClipboard_modern_or_fallback modernEnv "bc1qxy" walletWired).1
      ⟨some (fun _ => .pending 7)⟩ (fun _ => .pending 7) rfl rfl⟩

theorem copyToClipboard_frame (env : Env) (text : String) (s : State) :
    (copyToClipboard env text s).2.body = s.body ∧
      (copyToClipboard env text s).2.console = s.console ∧
      (copyToClipboard env text s).2.timers = s.timers ∧
      (copyToClipboard env text s).2.jobs = s.jobs ∧
      (copyToClipboard env text s).2.listeners = s.listeners ∧
      ∃ rest, (copyToClipboard env text s).2.trace = s.trace ++ .copyToClipboard text :: rest ∧
        copyCalls rest = [] := by
  cases h : env.writeText with
  | some w =>
    rw [copyToClipboard_modern env text s w h]
    exact ⟨rfl, rfl, rfl, rfl, rfl, _, rfl, rfl⟩
  | none =>
    rw [copyToClipboard_fallback env text s h]
    exact ⟨rfl, rfl, rfl, rfl, rfl, _, rfl, rfl⟩

/-! ## Copy on click (C4, C5) -/

theorem copyCalls_append (a b : List Call) : copyCalls (a ++ b) = copyCalls a ++ copyCalls b := by
  simp [copyCalls, List.filterMap_append]

theorem copyClick_frame (env : Env) (element : Nat) (text : String) (s : State) :
    (copyClick env element text s).body = (classListAdd element "copied" s).body ∧
      (copyClick env element text s).console = s.console ∧
      (copyClick env element text s).timers = s.timers ∧
      (copyClick env element text s).jobs =
        s.jobs ++ [((copyToClipboard env text (classListAdd element "copied" s)).1,
          .copySettled element)] ∧
      (copyClick env element text s).listeners = s.listeners ∧
      ∃ rest, (copyClick env element text s).trace =
          s.trace ++ [.classListAdd element "copied", .copyToClipboard text] ++ rest ∧
        copyCalls rest = [] := by
  obtain ⟨h1, h2, h3, h4, h5, rest, h6, h7⟩ :=
    copyToClipboard_frame env text (classListAdd element "copied" s)
  refine ⟨h1, h2, h3, ?_, h5, rest, ?_, h7⟩
  · simp only [copyClick, h4]
    rfl
  · simp only [copyClick, h6]
    simp [classListAdd]

theorem runReaction_copySettled (element : Nat) (o : Outcome) (s : State) :
    runReaction (.copySettled element) o s =
      match o with
      | .fulfilled => { s with timers := s.timers ++ [⟨.removeClass element "copied", 1500⟩] }
      | .rejected reason =>
        { s with
          timers := s.timers ++ [⟨.removeClass element "copied", 1500⟩]
          console := s.console ++ [("Failed to copy text: ", reason)] } := by
  cases o <;> rfl

theorem settle_copyClick (env : Env) (element : Nat) (text : String) (s : State) (o : Outcome)
    (ho : (copyToClipboard env text (classListAdd element "copied" s)).1.settlesAs o = true) :
    settle s.jobs.length o (copyClick env element text s) =
      some (runReaction (.copySettled element) o
        { copyClick env element text s with jobs := s.jobs }) := by
  obtain ⟨_, _, _, hj, _⟩ := copyClick_frame env element text s
  unfold settle
  simp only [hj, List.getElem?_concat_length, ho, if_true]
  rw [List.eraseIdx_append_of_length_le (Nat.le_refl _)]
  simp

theorem fire_last (s : State) (ts : List Timer) (t : Timer) (h : s.timers = ts ++ [t]) :
    fire ts.length s = some (runCallback t.callback { s with timers := ts }) := by
  unfold fire
  simp only [h, List.getElem?_concat_length]
  rw [List.eraseIdx_append_of_length_le (Nat.le_refl _)]
  simp

theorem not_mem_removeToken_self (tok : String) (l : List String) :
    tok ∉ removeToken tok l := by
  intro h
  exact ((mem_removeToken _ _ _).1 h).2 rfl

/-- C4: for a click on the copyable element `element`, present in the page with children `cs`.
The handler adds `copied` and only then calls `copyToClipboard` (the trace gains the two calls
in this order), so the class is present when the handler returns; no timer is scheduled yet, and
one reaction chain waits on the returned promise.  Whichever way the promise settles, the chain
schedules exactly one timer, the removal of `copied` from `element` with delay 1500, and leaves
the body alone; once that timer has fired the element does not carry `copied`.  The last part is
also stated end to end: click, settlement `o`, timer. -/
theorem copyClick_flags_then_clears (env : Env) (element : Nat) (text : String) (s : State)
    (d : ElementData) (cs : List Node) (h : lookupL element s.body = some (d, cs)) :
    (∃ rest, (copyClick env element text s).trace =
      s.trace ++ [.classListAdd element "copied", .copyToClipboard text] ++ rest) ∧
    (∃ d1, lookupL element (copyClick env element text s).body = some (d1, cs) ∧
      "copied" ∈ d1.classList) ∧
    (copyClick env element text s).timers = s.timers ∧
    (copyClick env element text s).jobs =
      s.jobs ++ [((copyToClipboard env text (classListAdd element "copied" s)).1,
        .copySettled element)] ∧
    (∀ (o : Outcome) (s2 : State),
      (runReaction (.copySettled element) o s2).timers =
        s2.timers ++ [⟨.removeClass element "copied", 1500⟩] ∧
      (runReaction (.copySettled element) o s2).body = s2.body) ∧
    (∀ (s3 : State) (cl : List String),
      classListOf element (runCallback (.removeClass element "copied") s3).body = some cl →
        "copied" ∉ cl) ∧
    (∀ o : Outcome,
      (copyToClipboard env text (classListAdd element "copied" s)).1.settlesAs o = true →
      ∃ s2 s3 d3, settle s.jobs.length o (copyClick env element text s) = some s2 ∧
        s2.timers = s.timers ++ [⟨.removeClass element "copied", 1500⟩] ∧
        fire s.timers.length s2 = some s3 ∧ s3.timers = s.timers ∧
        lookupL element s3.body = some (d3, cs) ∧ "copied" ∉ d3.classList) := by
  obtain ⟨hb, _, ht, hj, _, rest, htr, _⟩ := copyClick_frame env element text s
  have hl1 : lookupL element (copyClick env element text s).body =
      some ({ d with classList := addToken "copied" d.classList }, cs) := by
    rw [hb, lookupL_classListAdd, h]
    rfl
  have hreact : ∀ (o : Outcome) (s2 : State),
      (runReaction (.copySettled element) o s2).timers =
        s2.timers ++ [⟨.removeClass element "copied", 1500⟩] ∧
      (runReaction (.copySettled element) o s2).body = s2.body := by
    intro o s2
    rw [runReaction_copySettled]
    cases o <;> exact ⟨rfl, rfl⟩
  refine ⟨⟨rest, htr⟩, ⟨_, hl1, (mem_addToken _ _ _).2 (Or.inl rfl)⟩, ht, hj, hreact, ?_, ?_⟩
  · intro s3 cl hcl
    simp only [runCallback, classListOf, lookupL_classListRemove, Option.map_map] at hcl
    cases hl : lookupL element s3.body with
    | none => simp [hl] at hcl
    | some e =>
      simp only [hl, Option.map_some', Function.comp, Option.some.injEq] at hcl
      subst hcl
      exact not_mem_removeToken_self _ _
  · intro o ho
    have hs2 := settle_copyClick env element text s o ho
    have hr := hreact o { copyClick env element text s with jobs := s.jobs }
    have ht2 : (runReaction (.copySettled element) o
        { copyClick env element text s with jobs := s.jobs }).timers =
          s.timers ++ [⟨.removeClass element "copied", 1500⟩] := by
      rw [hr.1]
      simp only [ht]
    have hf := fire_last _ s.timers ⟨.removeClass element "copied", 1500⟩ ht2
    refine ⟨_, _,
      { d with classList := removeToken "copied" (addToken "copied" d.classList) }, hs2,
      ht2, hf, rfl, ?_, not_mem_removeToken_self "copied" _⟩
    simp only [runCallback]
    rw [lookupL_classListRemove]
    simp only [hr.2, hl1]
    rfl

/-- On `walletWired`, in the browser without the asynchronous clipboard: the click on the
address (element `2`) flags it, the fulfilled promise schedules the timer, the timer clears the
flag. -/
theorem copyClick_flags_then_clears_witness :
    lookupL 2 walletWired.body =
        some (⟨2, "code", ["address-code"], [], ""⟩, [.text "  bc1qxy \n"]) ∧
      ∃ s2 s3 d3, settle walletWired.jobs.length .fulfilled
            (copyClick legacyEnv 2 "bc1qxy" walletWired) = some s2 ∧
        s2.timers = walletWired.timers ++ [⟨.removeClass 2 "copied", 1500⟩] ∧
        fire walletWired.timers.length s2 = some s3 ∧ s3.timers = walletWired.timers ∧
        lookupL 2 s3.body = some (d3, [.text "  bc1qxy \n"]) ∧ "copied" ∉ d3.classList :=
  ⟨rfl, (copyClick_flags_then_clears legacyEnv 2 "bc1qxy" walletWired _ _ rfl).2.2.2.2.2.2
    .fulfilled rfl⟩

/-- C5: the click handler itself logs nothing.  When the promise is rejected, the reaction
chain logs exactly one error, `Failed to copy text: ` with the reason, and still schedules the
removal of `copied` with delay 1500; when it is fulfilled nothing is logged.  End to end: after
a click whose promise can reject, the settlement leaves the console one entry longer and the
timer list one timer longer. -/
theorem copySettled_rejected_logs_once (env : Env) (element : Nat) (text : String) (s : State) :
    (copyClick env element text s).console = s.console ∧
    (∀ (reason : String) (s2 : State),
      (runReaction (.copySettled element) (.rejected reason) s2).console =
        s2.console ++ [("Failed to copy text: ", reason)] ∧
      (runReaction (.copySettled element) (.rejected reason) s2).timers =
        s2.timers ++ [⟨.removeClass element "copied", 1500⟩]) ∧
    (∀ s2 : State,
      (runReaction (.copySettled element) .fulfilled s2).console = s2.console ∧
      (runReaction (.copySettled element) .fulfilled s2).timers =
        s2.timers ++ [⟨.removeClass element "copied", 1500⟩]) ∧
    (∀ reason : String,
      (copyToClipboard env text (classListAdd element "copied" s)).1.settlesAs
          (.rejected reason) = true →
      ∃ s2, settle s.jobs.length (.rejected reason) (copyClick env element text s) = some s2 ∧
        s2.console = s.console ++ [("Failed to copy text: ", reason)] ∧
        s2.timers = s.timers ++ [⟨.removeClass element "copied", 1500⟩]) := by
  obtain ⟨_, hc, ht, _⟩ := copyClick_frame env element text s
  refine ⟨hc, fun reason s2 => ⟨rfl, rfl⟩, fun s2 => ⟨rfl, rfl⟩, ?_⟩
  intro reason ho
  refine ⟨_, settle_copyClick env element text s _ ho, ?_, ?_⟩
  · rw [runReaction_copySettled]
    simp only [hc]
  · rw [runReaction_copySettled]
    simp only [ht]

/-- In `modernEnv` the promise of `writeText` is pending; when it is rejected after a click on
the address of `walletWired`, one error is logged and one timer scheduled. -/
theorem copySettled_rejected_logs_once_witness :
    ∃ s2, settle walletWired.jobs.length (.rejected "NotAllowedError")
          (copyClick modernEnv 2 "bc1qxy" walletWired) = some s2 ∧
      s2.console = walletWired.console ++ [("Failed to copy text: ", "NotAllowedError")] ∧
      s2.timers = walletWired.timers ++ [⟨.removeClass 2 "copied", 1500⟩] :=
  (copySettled_rejected_logs_once modernEnv 2 "bc1qxy" walletWired).2.2.2 "NotAllowedError" rfl

/-! ## Event propagation -/

mutual
theorem Node.pathTo_head (r : Nat) :
    ∀ (n : Node) (p : List Nat), n.pathTo r = some p → ∃ rest, p = r :: rest
  | .text _, p => by simp [Node.pathTo]
  | .element d cs, p => by
    intro h
    by_cases hd : d.ref = r
    · simp only [Node.pathTo, hd, if_true, Option.some.injEq] at h
      exact ⟨[], h.symm⟩
    · simp only [Node.pathTo, hd, if_false] at h
      cases hc : pathToL r cs with
      | none => simp [hc] at h
      | some q =>
        obtain ⟨rest, rfl⟩ := pathToL_head r cs q hc
        simp only [hc, Option.some.injEq] at h
        exact ⟨rest ++ [d.ref], by rw [← h]; rfl⟩
theorem pathToL_head (r : Nat) :
    ∀ (l : List Node) (p : List Nat), pathToL r l = some p → ∃ rest, p = r :: rest
  | [], p => by simp [pathToL]
  | n :: ns, p => by
    intro h
    cases hc : n.pathTo r with
    | some q =>
      simp only [pathToL, hc, Option.some.injEq] at h
      subst h
      exact Node.pathTo_head r n q hc
    | none =>
      simp only [pathToL, hc] at h
      exact pathToL_head r ns p h
end

theorem propagationPath_head (target : Nat) (event : String) (page : List Node) :
    ∃ rest, propagationPath target event page = target :: rest := by
  unfold propagationPath
  by_cases hb : bubbles event = true
  · simp only [hb, if_true]
    cases hp : pathToL target page with
    | none => exact ⟨[], rfl⟩
    | some p =>
      obtain ⟨rest, rfl⟩ := pathToL_head target page p hp
      exact ⟨rest, rfl⟩
  · simp only [hb]
    exact ⟨[], rfl⟩

theorem propagationPath_eq_cons_tail (target : Nat) (event : String) (page : List Node) :
    propagationPath target event page = target :: (propagationPath target event page).tail := by
  obtain ⟨rest, h⟩ := propagationPath_head target event page
  rw [h]
  rfl

theorem flatMap_eq_nil_of_forall {α β : Type} (f : α → List β) :
    ∀ l : List α, (∀ c ∈ l, f c = []) → l.flatMap f = []
  | [], _ => rfl
  | a :: l, h => by
    rw [List.flatMap_cons, h a (List.mem_cons_self _ _),
      flatMap_eq_nil_of_forall f l (fun c hc => h c (List.mem_cons_of_mem _ hc))]
    rfl

theorem filter_wired_click (page : List Node) (c : Nat) :
    (wiredListeners page).filter (fun x => x.target == c && x.event == "click") =
      ((querySelectorAll (.cls "address-code") page).filter (fun e => e.1.ref == c)).map
        (fun e => (⟨e.1.ref, "click", .copyClick e.1.ref (trim (textContentL e.2))⟩ :
          Listener)) := by
  unfold wiredListeners
  rw [List.filter_append, List.filter_append, filter_map_listener, filter_map_listener,
    filter_map_listener]
  simp

theorem filter_wired_submit (page : List Node) (c : Nat) :
    (wiredListeners page).filter (fun x => x.target == c && x.event == "submit") =
      (wiredForms page c).map (fun e => (⟨e.1.ref, "submit", .formSubmit⟩ : Listener)) := by
  unfold wiredListeners wiredForms
  rw [List.filter_append, List.filter_append, filter_map_listener, filter_map_listener,
    filter_map_listener]
  simp

theorem copyCalls_copyClick (env : Env) (element : Nat) (text : String) (s : State) :
    copyCalls (copyClick env element text s).trace = copyCalls s.trace ++ [text] := by
  obtain ⟨_, _, _, _, _, rest, htr, hrest⟩ := copyClick_frame env element text s
  rw [htr, copyCalls_append, copyCalls_append, hrest]
  simp [copyCalls]

theorem foldl_copyClick (env : Env) (text : Element → String) :
    ∀ (l : List Element) (s : State),
      (l.foldl (fun s e => copyClick env e.1.ref (text e) s) s).listeners = s.listeners ∧
      copyCalls (l.foldl (fun s e => copyClick env e.1.ref (text e) s) s).trace =
        copyCalls s.trace ++ l.map text
  | [], s => by simp
  | e :: l, s => by
    obtain ⟨h1, h2⟩ := foldl_copyClick env text l (copyClick env e.1.ref (text e) s)
    simp only [List.foldl_cons]
    refine ⟨by rw [h1]; exact (copyClick_frame env e.1.ref (text e) s).2.2.2.2.1, ?_⟩
    rw [h2, copyCalls_copyClick]
    simp

theorem deliver_click (env : Env) (page : List Node) (s : State) (c : Nat)
    (hl : s.listeners = wiredListeners page) :
    (deliver env "click" s c).listeners = wiredListeners page ∧
      copyCalls (deliver env "click" s c).trace = copyCalls s.trace ++ capturedText page c := by
  have hd : deliver env "click" s c =
      ((querySelectorAll (.cls "address-code") page).filter (fun e => e.1.ref == c)).foldl
        (fun s e => copyClick env e.1.ref (trim (textContentL e.2)) s) s := by
    unfold deliver
    rw [hl, filter_wired_click, List.foldl_map]
    rfl
  obtain ⟨h1, h2⟩ := foldl_copyClick env (fun e => trim (textContentL e.2))
    ((querySelectorAll (.cls "address-code") page).filter (fun e => e.1.ref == c)) s
  rw [hd]
  exact ⟨by rw [h1, hl], h2⟩

theorem foldl_deliver_click (env : Env) (page : List Node) :
    ∀ (path : List Nat) (s : State), s.listeners = wiredListeners page →
      copyCalls (path.foldl (deliver env "click") s).trace =
        copyCalls s.trace ++ path.flatMap (capturedText page)
  | [], s, _ => by simp
  | c :: path, s, hl => by
    obtain ⟨h1, h2⟩ := deliver_click env page s c hl
    simp only [List.foldl_cons, List.flatMap_cons]
    rw [foldl_deliver_click env page path _ h1, h2, List.append_assoc]

theorem foldl_const_iterate (f : State → State) :
    ∀ (l : List Element) (s : State), l.foldl (fun s _ => f s) s = f^[l.length] s
  | [], _ => rfl
  | _ :: l, s => by
    simp only [List.foldl_cons, List.length_cons, Function.iterate_succ_apply]
    exact foldl_const_iterate f l (f s)

theorem iterate_showLoading (n : Nat) (s : State) :
    (showLoading^[n] s).listeners = s.listeners ∧
      overlayCount (showLoading^[n] s).body = overlayCount s.body + n := by
  induction n with
  | zero => exact ⟨rfl, rfl⟩
  | succ n ih =>
    rw [Function.iterate_succ_apply']
    refine ⟨ih.1, ?_⟩
    simp only [showLoading]
    rw [overlayCount_append, overlayCount_overlayNode, ih.2]
    rfl

theorem deliver_submit (env : Env) (page : List Node) (s : State) (c : Nat)
    (hl : s.listeners = wiredListeners page) :
    deliver env "submit" s c = showLoading^[(wiredForms page c).length] s := by
  unfold deliver
  rw [hl, filter_wired_submit, List.foldl_map]
  exact foldl_const_iterate showLoading (wiredForms page c) s

theorem foldl_deliver_submit (env : Env) (page : List Node) :
    ∀ (path : List Nat) (s : State), s.listeners = wiredListeners page →
      path.foldl (deliver env "submit") s =
        showLoading^[(path.flatMap (wiredForms page)).length] s
  | [], _, _ => rfl
  | c :: path, s, hl => by
    have h1 := deliver_submit env page s c hl
    have h2 : (deliver env "submit" s c).listeners = wiredListeners page := by
      rw [h1, (iterate_showLoading _ s).1, hl]
    simp only [List.foldl_cons, List.flatMap_cons, List.length_append]
    rw [foldl_deliver_submit env page path _ h2, h1, Nat.add_comm, Function.iterate_add_apply]

/-! ## Form submission (C7) -/

/-- C7, as stated, fails twice.  On `tipFormPage`, in a browser without the `bootstrap` global,
`initTooltips` throws before the forms are wired, so a submit on the form (element `1`) adds no
overlay.  On `nestedFormsWired` a submit on the inner form (element `1`) bubbles to the outer
form and adds two overlays. -/
theorem submit_zero_or_two_overlays :
    domContentLoaded legacyEnv tipFormPage = .error "ReferenceError: bootstrap is not defined" ∧
      (querySelectorAll (.tag "form") tipFormPage.body).map (fun e => e.1.ref) = [1] ∧
      (dispatch legacyEnv 1 "submit" tipFormPage).body = tipFormPage.body ∧
      overlayCount (dispatch legacyEnv 1 "submit" tipFormPage).body = 0 ∧
      domContentLoaded modernEnv { nestedFormsWired with listeners := [] } =
        .ok nestedFormsWired ∧
      overlayCount nestedFormsWired.body = 0 ∧
      overlayCount (dispatch modernEnv 1 "submit" nestedFormsWired).body = 2 :=
  ⟨rfl, by decide, by decide, by decide, rfl, by decide, by decide⟩

/-- C7, amended: when the `DOMContentLoaded` listener ran to completion on a page (state `s0`,
no listener registered before, element identities distinct), then for every form `d` of that
page and every later state `s` with the listeners it registered in which no ancestor of the form
is a form of the bootstrap page (`hanc`): one submit event on the form is one run of
`showLoading`, the body becomes the old body followed by the new overlay node, whose root has
class `loading-overlay`, and the number of overlay elements grows by exactly one.  In general a
submit event at any `target` runs `showLoading` once for each form of the bootstrap page on its
propagation path, and the number of overlay elements grows by that number. -/
theorem submit_runs_showLoading_once (env : Env) (s0 s1 : State) (d : ElementData)
    (cs : List Node) (hboot : domContentLoaded env s0 = .ok s1) (h0 : s0.listeners = [])
    (hrefs : RefsDistinct s0.body) (hform : (d, cs) ∈ querySelectorAll (.tag "form") s0.body)
    (s : State) (hs : s.listeners = s1.listeners)
    (hanc : ∀ c ∈ (propagationPath d.ref "submit" s.body).tail, wiredForms s0.body c = []) :
    dispatch env d.ref "submit" s = showLoading s ∧
      (showLoading s).body = s.body ++ [overlayNode s.nextRef] ∧
      (∃ inner, overlayNode s.nextRef =
        .element ⟨s.nextRef, "div", ["loading-overlay"], [], ""⟩ inner) ∧
      overlayCount (showLoading s).body = overlayCount s.body + 1 ∧
      (∀ target : Nat,
        dispatch env target "submit" s =
          showLoading^[((propagationPath target "submit" s.body).flatMap
            (wiredForms s0.body)).length] s ∧
        overlayCount (dispatch env target "submit" s).body =
          overlayCount s.body +
            ((propagationPath target "submit" s.body).flatMap (wiredForms s0.body)).length) := by
  have hl : s.listeners = wiredListeners s0.body := by
    rw [hs, (domContentLoaded_ok env s0 s1 hboot).1, h0, List.nil_append]
  have hgen : ∀ target : Nat,
      dispatch env target "submit" s =
        showLoading^[((propagationPath target "submit" s.body).flatMap
          (wiredForms s0.body)).length] s := by
    intro target
    unfold dispatch
    exact foldl_deliver_submit env s0.body _ s hl
  have hone : wiredForms s0.body d.ref = [(d, cs)] :=
    filter_ref_eq_singleton _ (querySelectorAll_refs_nodup (.tag "form") s0.body hrefs)
      (d, cs) hform
  have hlen : ((propagationPath d.ref "submit" s.body).flatMap (wiredForms s0.body)).length =
      1 := by
    rw [propagationPath_eq_cons_tail, List.flatMap_cons, hone,
      flatMap_eq_nil_of_forall _ _ hanc]
    rfl
  refine ⟨?_, rfl, ⟨_, rfl⟩, ?_, ?_⟩
  · rw [hgen d.ref, hlen]
    rfl
  · simp only [showLoading]
    rw [overlayCount_append, overlayCount_overlayNode]
  · intro target
    refine ⟨hgen target, ?_⟩
    rw [hgen target]
    exact (iterate_showLoading _ s).2

/-- On `walletPage`, in a browser without the `bootstrap` global (the page has no tooltip
trigger), the listener completes; the form (element `0`) has no ancestor, and a submit on it
appends one overlay. -/
theorem submit_runs_showLoading_once_witness :
    domContentLoaded legacyEnv walletPage = .ok walletWired ∧
      RefsDistinct walletPage.body ∧
      propagationPath 0 "submit" walletWired.body = [0] ∧
      dispatch legacyEnv 0 "submit" walletWired = showLoading walletWired ∧
      overlayCount (showLoading walletWired).body = overlayCount walletWired.body + 1 :=
  have hboot : domContentLoaded legacyEnv walletPage = .ok walletWired := by rfl
  have hrefs : RefsDistinct walletPage.body := by unfold RefsDistinct; decide
  have hpath : propagationPath 0 "submit" walletWired.body = [0] := by decide
  have hw :=
    submit_runs_showLoading_once legacyEnv walletPage walletWired
      ⟨0, "form", [], [], ""⟩ [ .element ⟨1, "input", [], [("required", "")], ""⟩ [] ]
      hboot rfl hrefs (by decide) walletWired rfl
      (fun c hc => by rw [hpath] at hc; cases hc)
  ⟨hboot, hrefs, hpath, hw.1, hw.2.2.2.1⟩

/-! ## The copied string (C9) -/

/-- C9, as stated, fails on `nestedCodesWired`: the copyable element `1`, whose text at
bootstrap is `B`, lies inside the copyable element `0`, whose text is `A B C`.  A click on
element `1` bubbles to element `0`, so `copyToClipboard` is called twice and the second string
is not the text of the clicked element. -/
theorem click_nested_copies_outer_text :
    domContentLoaded modernEnv { nestedCodesWired with listeners := [] } =
        .ok nestedCodesWired ∧
      capturedText nestedCodesWired.body 1 = ["B"] ∧
      propagationPath 1 "click" nestedCodesWired.body = [1, 0] ∧
      copyCalls (dispatch modernEnv 1 "click" nestedCodesWired).trace = ["B", "A B C"] :=
  ⟨rfl, by decide, by decide, by decide⟩

/-- C9, amended: when the `DOMContentLoaded` listener ran to completion on a page (state `s0`,
no listener registered before, element identities distinct), then in every later state `s` with
the listeners it registered, whatever the text contents have become, a click at any `target`
makes one `copyToClipboard` call for each copyable element of the bootstrap page on the
propagation path (the target, then its ancestors, nearest first), each with the trimmed text
content that element had when the bootstrap ran.  So when a copyable element `d` is on the path
(the click is on it or on a descendant) and no other copyable element is, exactly one call is
made, with the captured text of `d`. -/
theorem click_copies_captured_text (env : Env) (s0 s1 : State)
    (hboot : domContentLoaded env s0 = .ok s1) (h0 : s0.listeners = [])
    (hrefs : RefsDistinct s0.body) (s : State) (hs : s.listeners = s1.listeners)
    (target : Nat) :
    copyCalls (dispatch env target "click" s).trace =
        copyCalls s.trace ++
          (propagationPath target "click" s.body).flatMap (capturedText s0.body) ∧
      (∀ d cs, (d, cs) ∈ querySelectorAll (.cls "address-code") s0.body →
        capturedText s0.body d.ref = [trim (textContentL cs)]) ∧
      (∀ d cs p1 p2, (d, cs) ∈ querySelectorAll (.cls "address-code") s0.body →
        propagationPath target "click" s.body = p1 ++ d.ref :: p2 →
        (∀ c ∈ p1 ++ p2, capturedText s0.body c = []) →
        copyCalls (dispatch env target "click" s).trace =
          copyCalls s.trace ++ [trim (textContentL cs)]) := by
  have hl : s.listeners = wiredListeners s0.body := by
    rw [hs, (domContentLoaded_ok env s0 s1 hboot).1, h0, List.nil_append]
  have hgen : copyCalls (dispatch env target "click" s).trace =
      copyCalls s.trace ++
        (propagationPath target "click" s.body).flatMap (capturedText s0.body) := by
    unfold dispatch
    exact foldl_deliver_click env s0.body _ s hl
  have hone : ∀ d cs, (d, cs) ∈ querySelectorAll (.cls "address-code") s0.body →
      capturedText s0.body d.ref = [trim (textContentL cs)] := by
    intro d cs hel
    unfold capturedText
    rw [filter_ref_eq_singleton _
      (querySelectorAll_refs_nodup (.cls "address-code") s0.body hrefs) (d, cs) hel]
    rfl
  refine ⟨hgen, hone, ?_⟩
  intro d cs p1 p2 hel hpath hothers
  rw [hgen, hpath, List.flatMap_append, List.flatMap_cons, hone d cs hel,
    flatMap_eq_nil_of_forall _ p1 (fun c hc => hothers c (List.mem_append_left _ hc)),
    flatMap_eq_nil_of_forall _ p2 (fun c hc => hothers c (List.mem_append_right _ hc))]
  rfl

/-- On `walletPage` the address reads `"  bc1qxy \n"` at bootstrap; a click after the text was
replaced by `"changed"` still copies `"bc1qxy"`.  On `nestedCodesWired` a click on the plain
element `2` inside the copyable element `0` copies the captured text of element `0`. -/
theorem click_copies_captured_text_witness :
    domContentLoaded modernEnv walletPage = .ok { walletWired with tooltips := [] } ∧
      copyCalls (dispatch modernEnv 2 "click" (setText 2 "changed" walletWired)).trace =
        ["bc1qxy"] ∧
      propagationPath 2 "click" nestedCodesWired.body = [2, 0] ∧
      copyCalls (dispatch modernEnv 2 "click" nestedCodesWired).trace = ["A B C"] :=
  have hboot : domContentLoaded modernEnv walletPage = .ok { walletWired with tooltips := [] } :=
    by rfl
  have hboot2 : domContentLoaded modernEnv { nestedCodesWired with listeners := [] } =
      .ok nestedCodesWired := by rfl
  ⟨hboot,
    (click_copies_captured_text modernEnv walletPage _ hboot rfl
      (by unfold RefsDistinct; decide) (setText 2 "changed" walletWired) rfl 2).1,
    by decide,
    (click_copies_captured_text modernEnv { nestedCodesWired with listeners := [] } _ hboot2 rfl
      (by unfold RefsDistinct; decide) nestedCodesWired rfl 2).1⟩

/-! ## Timestamps (C3) -/

theorem formatTimestamp_console (env : Env) (s : State) (e : Element) :
    (formatTimestamp env s e).console = s.console := by
  unfold formatTimestamp
  cases getAttribute e.1 "data-timestamp" with
  | none => rfl
  | some ts =>
    by_cases ht : truthy ts = true
    · simp [ht, formatTimestampTry]
    · simp [ht]

theorem foldl_formatTimestamp_console (env : Env) :
    ∀ (l : List Element) (s : State), (l.foldl (formatTimestamp env) s).console = s.console
  | [], _ => rfl
  | e :: l, s => by
    rw [List.foldl_cons, foldl_formatTimestamp_console env l, formatTimestamp_console]

/-- C3, what the code does instead: `formatTimestamps` never writes to the console, in any
browser and on any page; on an element whose non-empty timestamp the browser cannot parse, the
callback sets the text to `Invalid Date` and the `catch` branch is not taken; on `timestampPage`,
whose only timestamp is `"not a date"`, the text `pending` is replaced by `Invalid Date` and the
console stays empty (for every browser that cannot parse it, and evaluated in `legacyEnv`). -/
theorem formatTimestamps_invalid_date :
    (∀ (env : Env) (s : State), (formatTimestamps env s).console = s.console) ∧
    (∀ (env : Env) (s : State) (e : Element) (timestamp : String),
      getAttribute e.1 "data-timestamp" = some timestamp → timestamp ≠ "" →
      env.dateParse timestamp = none →
        formatTimestamp env s e =
          { s with body := setTextContent e.1.ref "Invalid Date" s.body }) ∧
    (∀ env : Env, env.dateParse "not a date" = none →
      (formatTimestamps env timestampPage).body =
          [ .element ⟨0, "span", [], [("data-timestamp", "not a date")], ""⟩
              [.text "Invalid Date"] ] ∧
        textContentL (formatTimestamps env timestampPage).body = "Invalid Date" ∧
        textContentL timestampPage.body = "pending" ∧
        (formatTimestamps env timestampPage).console = []) ∧
    textContentL (formatTimestamps legacyEnv timestampPage).body = "Invalid Date" ∧
    (formatTimestamps legacyEnv timestampPage).console = [] := by
  refine ⟨fun env s => foldl_formatTimestamp_console env _ s, ?_, ?_, by decide, by decide⟩
  · intro env s e timestamp ha hne hp
    have ht : truthy timestamp = true := by simpa [truthy] using hne
    simp [formatTimestamp, ha, ht, formatTimestampTry, hp, dateToLocaleString]
  · intro env h
    have hb : (formatTimestamps env timestampPage).body =
        setTextContent 0 (dateToLocaleString env (env.dateParse "not a date"))
          timestampPage.body := by
      rfl
    have hbody : (formatTimestamps env timestampPage).body =
        [ .element ⟨0, "span", [], [("data-timestamp", "not a date")], ""⟩
            [.text "Invalid Date"] ] := by
      rw [hb, h]
      rfl
    refine ⟨hbody, ?_, by decide, ?_⟩
    · rw [hbody]
      decide
    · exact foldl_formatTimestamp_console env _ timestampPage

end SatSentry
